import Mathlib

/-!
Verification development for the Excel-to-store property importer.

The importer ingests spreadsheet rows describing real-estate units and
reconciles them into a store of unit records keyed by
`(building_name, unit_number)`, each carrying a list of owner entries.
This file gives a shallow embedding of the importer's value normalizers
(`parse_money`, `parse_number`, `clean_phone`, `split_contacts`) and of the
per-row reconciliation step of `main` (field merge, owner matching via
`find_owner_indices`, insert/update bookkeeping), together with theorems
about the behaviour of these functions.

Numbers are modelled exactly: Python floats become rationals, and the
`int(f) if f.is_integer() else f` result type becomes `Int ⊕ Rat`.
-/

/-! ### Python-style text primitives -/

/-- Whitespace characters stripped by Python's `str.strip()`. -/
def isPyWS (c : Char) : Bool :=
  c == ' ' || c == '\t' || c == '\n' || c == '\r' || c == '\x0B' || c == '\x0C'

/-- Python `str.strip()` on a list of characters. -/
def trimChars (l : List Char) : List Char :=
  ((l.dropWhile isPyWS).reverse.dropWhile isPyWS).reverse

/-- ASCII lower-casing of a single character, as Python `str.lower()` does on
ASCII text. -/
def lowerC (c : Char) : Char :=
  if 'A' ≤ c ∧ c ≤ 'Z' then Char.ofNat (c.toNat + 32) else c

/-- The sentinel texts `""`, `"nan"`, `"null"`, `"none"`, `"-"` that the
helpers treat as missing values (compared lower-cased). -/
def isSentinelL (l : List Char) : Bool :=
  decide (l.map lowerC ∈
    ([[], ['n','a','n'], ['n','u','l','l'], ['n','o','n','e'], ['-']] : List (List Char)))

/-- Numeric value of a list of decimal digit characters, most significant
first (`foldl`-style, as left-to-right accumulation). -/
def digitsVal (l : List Char) : Nat :=
  l.foldl (fun a c => 10 * a + (c.toNat - 48)) 0

/-- Number of `'.'` characters in a list. -/
def dotCount (l : List Char) : Nat :=
  (l.filter (fun c => c == '.')).length

/-- The characters kept by `re.sub(r"[^\d\.\-]", "", s)` in the numeric
parsers: digits, dot, minus. -/
def numFilterChar (c : Char) : Bool :=
  c.isDigit || c == '.' || c == '-'

/-- Split a character list at every `'.'`, keeping empty fragments: the
model of Python `s.split(".")`. -/
def splitDots : List Char → List (List Char)
  | [] => [[]]
  | c :: rest =>
    if c = '.' then [] :: splitDots rest
    else
      match splitDots rest with
      | g :: gs => (c :: g) :: gs
      | [] => [[c]]

/-- Python's `parts[0] + "." + "".join(parts[1:])` collapse applied only when
`len(parts) > 2`, as in `parse_money`. -/
def collapseDotsL (l : List Char) : List Char :=
  match splitDots l with
  | [] => l
  | p :: rest => if 2 ≤ rest.length then p ++ '.' :: rest.flatten else l

/-- The integer part of a dotted digit string: the digits before the first
dot. -/
def intPartOf (l : List Char) : List Char :=
  l.takeWhile (fun c => !(c == '.'))

/-- The fractional part of a dotted digit string: the digits after the first
dot. -/
def fracPartOf (l : List Char) : List Char :=
  (l.dropWhile (fun c => !(c == '.'))).drop 1

/-- Core of Python `float()` on a sign-free string over the alphabet left by
the numeric filter: succeeds exactly on digit strings with at most one dot
and at least one digit, producing the exact rational value
`(intpart * 10^k + fracpart) / 10^k`. -/
def pyFloatCore (l : List Char) : Option ℚ :=
  if (∀ c ∈ l, c.isDigit = true ∨ c = '.') ∧ dotCount l ≤ 1 ∧ (∃ c ∈ l, c.isDigit = true) then
    some (mkRat
      ((digitsVal (intPartOf l) * 10 ^ (fracPartOf l).length + digitsVal (fracPartOf l) : ℕ) : ℤ)
      (10 ^ (fracPartOf l).length))
  else none

/-- Python `float()` on a string over the digits/dot/minus alphabet: an
optional single leading minus, then `pyFloatCore`. -/
def pyFloat (l : List Char) : Option ℚ :=
  match l with
  | '-' :: rest => (pyFloatCore rest).map (fun q => -q)
  | _ => pyFloatCore l

/-! ### Value normalizers (from `import_excel.py`) -/

/-- Model of `parse_money`: strip, sentinel check, keep digits/dot/minus,
collapse multi-dot text onto the first dot, then `float()`; `none` on
failure. -/
def parse_money (val : String) : Option ℚ :=
  let s := trimChars val.toList
  if isSentinelL s then none
  else pyFloat (collapseDotsL (s.filter numFilterChar))

/-- Python `int(f) if f.is_integer() else f`: an integer when the value has
no fractional part, the rational otherwise. -/
def classifyNum (q : ℚ) : ℤ ⊕ ℚ :=
  if q.den = 1 then Sum.inl q.num else Sum.inr q

/-- Model of `parse_number`: strip, sentinel check, keep digits/dot/minus,
then `float()` directly (no multi-dot collapse), classified as integer or
decimal; `none` on failure. -/
def parse_number (val : String) : Option (ℤ ⊕ ℚ) :=
  let s := trimChars val.toList
  if isSentinelL s then none
  else (pyFloat (s.filter numFilterChar)).map classifyNum

/-- The claimed reading of `parse_number`: identical to `parse_money`'s
pipeline, multi-dot collapse included, then integer/decimal classification.
Written from the specification's words, for comparison with the source
function. -/
def parse_number_claimed (val : String) : Option (ℤ ⊕ ℚ) :=
  let s := trimChars val.toList
  if isSentinelL s then none
  else (pyFloat (collapseDotsL (s.filter numFilterChar))).map classifyNum

/-- True when the character list ends in `".0"` (the Excel float artifact). -/
def endsDotZero (l : List Char) : Bool :=
  match l.reverse with
  | '0' :: '.' :: _ => true
  | _ => false

/-- Strip one trailing `".0"` when present: Python `s[:-2]` under
`s.endswith(".0")`. -/
def stripDotZero (l : List Char) : List Char :=
  if endsDotZero l then l.dropLast.dropLast else l

/-- The characters kept by `re.sub(r"[^\d+]", "", s)`: digits and plus
signs, wherever they occur. -/
def phoneFilter (l : List Char) : List Char :=
  l.filter (fun c => c.isDigit || c == '+')

/-- The `"00" → "+"` prefix rewrite of `clean_phone`. -/
def rewriteDoubleZero (l : List Char) : List Char :=
  match l with
  | '0' :: '0' :: r => '+' :: r
  | _ => l

/-- The `"05…" → "+9715…"` UAE prefix rewrite of `clean_phone`
(`s = "+971" + s[1:]`). -/
def rewriteLocalFive (l : List Char) : List Char :=
  match l with
  | '0' :: '5' :: r => '+' :: '9' :: '7' :: '1' :: '5' :: r
  | _ => l

/-- Model of `clean_phone`: strip, sentinel check, trailing-`".0"` strip,
keep digits and `'+'`, then the `00` and `05` prefix rewrites; empty string
when nothing usable remains. -/
def clean_phone (val : String) : String :=
  let s := trimChars val.toList
  if isSentinelL s then ""
  else
    let s := phoneFilter (stripDotZero s)
    if s = [] then ""
    else ⟨rewriteLocalFive (rewriteDoubleZero s)⟩

/-- The claimed reading of `clean_phone`: only digits and a single leading
`'+'` survive the filtering step (an interior `'+'` is dropped), then the
same prefix rewrites. Written from the specification's words, for
comparison with the source function. -/
def clean_phone_claimed (val : String) : String :=
  let s := trimChars val.toList
  if isSentinelL s then ""
  else
    let s0 := stripDotZero s
    let s := (if s0.head? = some '+' then ['+'] else []) ++ s0.filter Char.isDigit
    if s = [] then ""
    else ⟨rewriteLocalFive (rewriteDoubleZero s)⟩

/-- Separator characters of `re.split(r"[;,/|&\s]+", raw)`. -/
def isSepChar (c : Char) : Bool :=
  c == ';' || c == ',' || c == '/' || c == '|' || c == '&' || c.isWhitespace

/-- Split a character list at separator characters, producing the (possibly
empty) fragments between them. Runs of separators only add empty fragments,
which the caller drops, so this matches the `+`-quantified regex split. -/
def splitSeps : List Char → List (List Char)
  | [] => [[]]
  | c :: rest =>
    if isSepChar c then [] :: splitSeps rest
    else
      match splitSeps rest with
      | g :: gs => (c :: g) :: gs
      | [] => [[c]]

/-- Model of `split_contacts`: split the raw cell on separators, normalize
each fragment with `clean_phone`, drop empties, de-duplicate preserving
first-seen order. -/
def split_contacts (raw : String) : List String :=
  if raw = "" then []
  else
    (splitSeps raw.toList).foldl
      (fun acc p =>
        let c := clean_phone ⟨p⟩
        if c ≠ "" ∧ c ∉ acc then acc ++ [c] else acc)
      []

example : parse_money "AED 1,200,000" = some 1200000 := by decide
example : parse_money "1.2.3" = some (mkRat 123 100) := by decide
example : parse_number "1.2.3" = none := by decide
example : parse_number "12.5" = some (Sum.inr (mkRat 25 2)) := by decide
example : parse_number "12.0" = some (Sum.inl 12) := by decide
example : parse_money "" = none := by decide
example : parse_money " NaN " = none := by decide
example : clean_phone "0501234567" = "+971501234567" := by decide
example : clean_phone "00971501234567.0" = "+971501234567" := by decide
example : clean_phone "12+34" = "12+34" := by decide
example : clean_phone_claimed "12+34" = "1234" := by decide
example : split_contacts "+971501234567, 971509999999" = ["+971501234567", "971509999999"] := by decide

/-! ### Data model of the reconciliation engine

A `Row` is a spreadsheet row after field extraction and normalization, the
values the engine's per-row loop actually consumes. `OwnerDoc` is one owner
entry as stored (`owner_name`, `role`, `contacts`, `registration_date`).
`Attrs` gathers the top-level attribute fields of a unit record, each
optional exactly as the `or None` normalizations in `main` leave them. The
store is the in-memory cache of `main` unified with the collection it
mirrors: an insertion-ordered association list keyed by
`(building_name, unit_number)`. -/

structure OwnerDoc where
  owner_name : String
  role : String
  registration_date : String
  contacts : List String
deriving DecidableEq

structure Attrs where
  area_sqft : Option (ℤ ⊕ ℚ)
  price : Option ℚ
  price_raw : Option String
  property_type : Option String
  sub_type : Option String
  beds : Option (ℤ ⊕ ℚ)
  city : Option String
  community : Option String
  sub_community : Option String
  municipality_number : Option String
  municipality_sub_number : Option String
deriving DecidableEq

structure Record where
  attrs : Attrs
  owners : List OwnerDoc
deriving DecidableEq

structure Row where
  building : String
  unit_number : String
  owner_name : String
  role : String
  reg_date : String
  contacts : List String
  attrs : Attrs
deriving DecidableEq

structure Counters where
  inserted : Nat
  updated : Nat
  owners_merged_contacts : Nat
  owners_added_same_owner_new_date : Nat
  owners_added_new_owner : Nat
deriving DecidableEq

abbrev StoreKey := String × String

abbrev StoreT := List (StoreKey × Record)

structure EngineState where
  store : StoreT
  counters : Counters
deriving DecidableEq

/-! ### List and association-list primitives -/

/-- First index whose element satisfies `p`, the model of
`next((i for i, o in enumerate(owners) if ...), None)`. -/
def findIdxO {α : Type} (p : α → Bool) : List α → Option Nat
  | [] => none
  | x :: t => if p x then some 0 else (findIdxO p t).map (· + 1)

/-- Positional read `l[i]`. -/
def getAt {α : Type} : List α → Nat → Option α
  | [], _ => none
  | x :: _, 0 => some x
  | _ :: t, n + 1 => getAt t n

/-- Positional in-place write `l[i] = y`. -/
def setAt {α : Type} : List α → Nat → α → List α
  | [], _, _ => []
  | _ :: t, 0, y => y :: t
  | x :: t, n + 1, y => x :: setAt t n y

/-- Dictionary read: value of the first entry carrying the key. -/
def lookupStore : StoreT → StoreKey → Option Record
  | [], _ => none
  | kv :: t, k => if kv.1 = k then some kv.2 else lookupStore t k

/-- Dictionary write to an existing key: replace the value of the first
entry carrying the key, leave everything else in place. -/
def updateStore : StoreT → StoreKey → Record → StoreT
  | [], _, _ => []
  | kv :: t, k, r => if kv.1 = k then (k, r) :: t else kv :: updateStore t k r

/-- The keys of the store, in order. -/
def keysOf (s : StoreT) : List StoreKey :=
  s.map Prod.fst

/-! ### Owner matcher and per-row step (from `main`) -/

/-- Exact-entry predicate: same `(owner_name, role, registration_date)`. -/
def sameEntryB (name role reg : String) (o : OwnerDoc) : Bool :=
  decide (o.owner_name = name ∧ o.role = role ∧ o.registration_date = reg)

/-- Same-owner predicate: same `(owner_name, role)`, any date. -/
def sameOwnerB (name role : String) (o : OwnerDoc) : Bool :=
  decide (o.owner_name = name ∧ o.role = role)

/-- Model of `find_owner_indices`: `(idx_same_date, idx_same_owner_any_date)`. -/
def find_owner_indices (owners : List OwnerDoc) (name role reg : String) :
    Option Nat × Option Nat :=
  (findIdxO (sameEntryB name role reg) owners, findIdxO (sameOwnerB name role) owners)

/-- `(building, unit_number)`, the record key resolved from a row. -/
def rkey (r : Row) : StoreKey :=
  (r.building, r.unit_number)

/-- The skip guard of the engine: a row whose building, unit number, or
owner name is empty is dropped before any mutation. -/
def skippedB (r : Row) : Bool :=
  decide (r.building = "" ∨ r.unit_number = "" ∨ r.owner_name = "")

/-- The owner entry built from a row (`owner_doc` in `main`). -/
def ownerDocOf (r : Row) : OwnerDoc :=
  ⟨r.owner_name, r.role, r.reg_date, r.contacts⟩

/-- Per-string-field refresh: overwrite only with a non-null, non-empty
incoming value (the `set_fields` comprehension of `main`). -/
def keepS (old new : Option String) : Option String :=
  match new with
  | some v => if v = "" then old else some v
  | none => old

/-- Per-non-string-field refresh: overwrite only with a non-null incoming
value (a number never equals `""`). -/
def keepO {α : Type} (old new : Option α) : Option α :=
  match new with
  | some v => some v
  | none => old

/-- The partial update of a unit record's attribute fields by a row's
normalized values: `$set` of exactly the non-null, non-empty fields. -/
def mergeAttrs (old new : Attrs) : Attrs where
  area_sqft := keepO old.area_sqft new.area_sqft
  price := keepO old.price new.price
  price_raw := keepS old.price_raw new.price_raw
  property_type := keepS old.property_type new.property_type
  sub_type := keepS old.sub_type new.sub_type
  beds := keepO old.beds new.beds
  city := keepS old.city new.city
  community := keepS old.community new.community
  sub_community := keepS old.sub_community new.sub_community
  municipality_number := keepS old.municipality_number new.municipality_number
  municipality_sub_number := keepS old.municipality_sub_number new.municipality_sub_number

def bumpIns (c : Counters) : Counters := { c with inserted := c.inserted + 1 }
def bumpUpd (c : Counters) : Counters := { c with updated := c.updated + 1 }
def bumpMerged (c : Counters) : Counters :=
  { c with owners_merged_contacts := c.owners_merged_contacts + 1 }
def bumpNewDate (c : Counters) : Counters :=
  { c with owners_added_same_owner_new_date := c.owners_added_same_owner_new_date + 1 }
def bumpNewOwner (c : Counters) : Counters :=
  { c with owners_added_new_owner := c.owners_added_new_owner + 1 }

/-- A default owner entry for the (unreachable) out-of-range positional
read in the merge branch. -/
def blankOwner : OwnerDoc := ⟨"", "", "", []⟩

/-- One iteration of the row loop of `main`: skip guard, store lookup,
attribute refresh, owner matching (contact merge / new-date append /
new-owner append), or insertion of a brand-new record. -/
def stepRow (st : EngineState) (r : Row) : EngineState :=
  if skippedB r then st
  else
    let od := ownerDocOf r
    let k := rkey r
    match lookupStore st.store k with
    | some rec =>
      let attrs2 := mergeAttrs rec.attrs r.attrs
      let fi := find_owner_indices rec.owners r.owner_name r.role r.reg_date
      match fi.1 with
      | some i =>
        let current := (getAt rec.owners i).getD blankOwner
        let newNums := r.contacts.filter (fun c => decide (c ≠ "" ∧ c ∉ current.contacts))
        if newNums = [] then
          { store := updateStore st.store k { attrs := attrs2, owners := rec.owners },
            counters := bumpUpd st.counters }
        else
          { store := updateStore st.store k
              { attrs := attrs2,
                owners := setAt rec.owners i
                  { current with contacts := current.contacts ++ newNums } },
            counters := bumpUpd (bumpMerged st.counters) }
      | none =>
        match fi.2 with
        | some _ =>
          { store := updateStore st.store k
              { attrs := attrs2, owners := rec.owners ++ [od] },
            counters := bumpUpd (bumpNewDate st.counters) }
        | none =>
          { store := updateStore st.store k
              { attrs := attrs2, owners := rec.owners ++ [od] },
            counters := bumpUpd (bumpNewOwner st.counters) }
    | none =>
      { store := st.store ++ [(k, { attrs := r.attrs, owners := [od] })],
        counters := bumpIns st.counters }

/-- The whole run of the reconciliation engine over a list of rows. -/
def runRows (st : EngineState) (l : List Row) : EngineState :=
  l.foldl stepRow st

/-- Attrs with every field absent, for concrete test rows. -/
def blankAttrs : Attrs :=
  ⟨none, none, none, none, none, none, none, none, none, none, none⟩

def zeroCounters : Counters := ⟨0, 0, 0, 0, 0⟩

example :
    runRows ⟨[], zeroCounters⟩
      [⟨"Marina Heights", "101", "J. Doe", "Owner", "2023-01-01", ["+971501234567"], blankAttrs⟩,
       ⟨"Marina Heights", "101", "J. Doe", "Owner", "2023-01-01",
        ["+971501234567", "971509999999"], blankAttrs⟩] =
    ⟨[(("Marina Heights", "101"),
       ⟨blankAttrs, [⟨"J. Doe", "Owner", "2023-01-01", ["+971501234567", "971509999999"]⟩]⟩)],
      ⟨1, 1, 1, 0, 0⟩⟩ := by decide

/-! ### Lemmas about the positional list primitives -/

theorem findIdxO_eq_none {α : Type} (p : α → Bool) (l : List α) :
    findIdxO p l = none ↔ ∀ x ∈ l, p x = false := by
  induction l with
  | nil => simp [findIdxO]
  | cons x t ih =>
    by_cases h : p x
    · simp [findIdxO, h]
    · simp only [Bool.not_eq_true] at h
      simp [findIdxO, h, ih, List.forall_mem_cons]

theorem findIdxO_some {α : Type} {p : α → Bool} {l : List α} {i : Nat}
    (h : findIdxO p l = some i) : ∃ o, getAt l i = some o ∧ p o = true := by
  induction l generalizing i with
  | nil => simp [findIdxO] at h
  | cons x t ih =>
    by_cases hx : p x
    · simp [findIdxO, hx] at h
      subst h
      exact ⟨x, rfl, hx⟩
    · simp [findIdxO, hx] at h
      obtain ⟨j, hj, hji⟩ := h
      obtain ⟨o, ho, hpo⟩ := ih hj
      exact ⟨o, by simpa [← hji, getAt] using ho, hpo⟩

theorem findIdxO_isSome_of_mem {α : Type} {p : α → Bool} {l : List α} {x : α}
    (hx : x ∈ l) (hp : p x = true) : ∃ i, findIdxO p l = some i := by
  rcases h : findIdxO p l with _ | i
  · rw [findIdxO_eq_none] at h
    rw [h x hx] at hp
    cases hp
  · exact ⟨i, rfl⟩

theorem getAt_mem {α : Type} {l : List α} {i : Nat} {o : α}
    (h : getAt l i = some o) : o ∈ l := by
  induction l generalizing i with
  | nil => simp [getAt] at h
  | cons x t ih =>
    cases i with
    | zero => simp [getAt] at h; simp [h]
    | succ n => simp [getAt] at h; exact List.mem_cons_of_mem x (ih h)

theorem length_setAt {α : Type} (l : List α) (i : Nat) (x : α) :
    (setAt l i x).length = l.length := by
  induction l generalizing i with
  | nil => simp [setAt]
  | cons y t ih =>
    cases i with
    | zero => simp [setAt]
    | succ n => simp [setAt, ih]

theorem getAt_setAt_self {α : Type} {l : List α} {i : Nat} {o : α} (x : α)
    (h : getAt l i = some o) : getAt (setAt l i x) i = some x := by
  induction l generalizing i with
  | nil => simp [getAt] at h
  | cons y t ih =>
    cases i with
    | zero => simp [getAt, setAt]
    | succ n => simp [getAt, setAt] at *; exact ih h

theorem getAt_setAt_ne {α : Type} (l : List α) (x : α) {i j : Nat} (h : i ≠ j) :
    getAt (setAt l j x) i = getAt l i := by
  induction l generalizing i j with
  | nil => simp [setAt]
  | cons y t ih =>
    cases j with
    | zero =>
      cases i with
      | zero => exact absurd rfl h
      | succ m => simp [getAt, setAt]
    | succ n =>
      cases i with
      | zero => simp [getAt, setAt]
      | succ m => simp [getAt, setAt]; exact ih (fun hc => h (by simp [hc]))

theorem mem_setAt {α : Type} {l : List α} {i : Nat} {x y : α}
    (h : y ∈ setAt l i x) : y ∈ l ∨ y = x := by
  induction l generalizing i with
  | nil => simp [setAt] at h
  | cons z t ih =>
    cases i with
    | zero =>
      rcases List.mem_cons.mp h with h1 | h1
      · right; exact h1
      · left; exact List.mem_cons_of_mem z h1
    | succ n =>
      rcases List.mem_cons.mp h with h1 | h1
      · left; simp [h1]
      · rcases ih h1 with h2 | h2
        · left; exact List.mem_cons_of_mem z h2
        · right; exact h2

theorem setAt_same {α : Type} {l : List α} {i : Nat} {x : α}
    (h : getAt l i = some x) : setAt l i x = l := by
  induction l generalizing i with
  | nil => simp [setAt]
  | cons y t ih =>
    cases i with
    | zero => simp [getAt] at h; simp [setAt, h]
    | succ n => simp [getAt] at h; simp [setAt, ih h]

theorem map_setAt {α β : Type} (f : α → β) (l : List α) (i : Nat) (x : α) :
    (setAt l i x).map f = setAt (l.map f) i (f x) := by
  induction l generalizing i with
  | nil => simp [setAt]
  | cons y t ih =>
    cases i with
    | zero => simp [setAt]
    | succ n => simp [setAt, ih]

theorem getAt_map {α β : Type} (f : α → β) (l : List α) (i : Nat) :
    getAt (l.map f) i = (getAt l i).map f := by
  induction l generalizing i with
  | nil => simp [getAt]
  | cons y t ih =>
    cases i with
    | zero => simp [getAt]
    | succ n => simp [getAt, ih]

theorem findIdxO_setAt {α : Type} {p : α → Bool} {l : List α} {j : Nat} {o : α} {x : α}
    (hg : getAt l j = some o) (hp : p x = p o) :
    findIdxO p (setAt l j x) = findIdxO p l := by
  induction l generalizing j with
  | nil => simp [setAt]
  | cons y t ih =>
    cases j with
    | zero =>
      simp [getAt] at hg
      subst hg
      simp [setAt, findIdxO, hp]
    | succ n =>
      simp [getAt] at hg
      simp [setAt, findIdxO, ih hg]

theorem findIdxO_append_left {α : Type} {p : α → Bool} {l : List α} {i : Nat}
    (h : findIdxO p l = some i) (l2 : List α) :
    findIdxO p (l ++ l2) = some i := by
  induction l generalizing i with
  | nil => simp [findIdxO] at h
  | cons x t ih =>
    by_cases hx : p x
    · simp [findIdxO, hx] at h ⊢; exact h
    · simp [findIdxO, hx] at h ⊢
      obtain ⟨j, hj, hji⟩ := h
      exact ⟨j, ih hj, hji⟩

theorem findIdxO_append_none {α : Type} {p : α → Bool} {l : List α}
    (h : findIdxO p l = none) (x : α) :
    findIdxO p (l ++ [x]) = if p x then some l.length else none := by
  induction l with
  | nil => simp [findIdxO]
  | cons y t ih =>
    by_cases hy : p y
    · simp [findIdxO, hy] at h
    · simp [findIdxO, hy] at h ⊢
      rw [ih h]
      by_cases hx : p x <;> simp [hx]

theorem getAt_append_left {α : Type} {l : List α} {i : Nat} {o : α}
    (h : getAt l i = some o) (l2 : List α) : getAt (l ++ l2) i = some o := by
  induction l generalizing i with
  | nil => simp [getAt] at h
  | cons y t ih =>
    cases i with
    | zero => simpa [getAt] using h
    | succ n => simp [getAt] at h ⊢; exact ih h

theorem getAt_length_append {α : Type} (l : List α) (x : α) :
    getAt (l ++ [x]) l.length = some x := by
  induction l with
  | nil => simp [getAt]
  | cons y t ih => simpa [getAt] using ih

/-! ### Lemmas about the store -/

theorem lookup_update_self {T : StoreT} {k : StoreKey} {v0 : Record} (r : Record)
    (h : lookupStore T k = some v0) :
    lookupStore (updateStore T k r) k = some r := by
  induction T with
  | nil => simp [lookupStore] at h
  | cons kv t ih =>
    by_cases hk : kv.1 = k
    · simp [lookupStore, updateStore, hk]
    · simp [lookupStore, updateStore, hk] at h ⊢
      exact ih h

theorem lookup_update_ne {T : StoreT} {k k' : StoreKey} (r : Record) (h : k' ≠ k) :
    lookupStore (updateStore T k r) k' = lookupStore T k' := by
  induction T with
  | nil => simp [updateStore]
  | cons kv t ih =>
    by_cases hk : kv.1 = k
    · subst hk
      have h2 : ¬(kv.1 = k') := fun hc => h hc.symm
      simp [lookupStore, updateStore, h2]
    · simp only [updateStore, if_neg hk, lookupStore]
      by_cases hk' : kv.1 = k' <;> simp [hk', ih]

theorem lookup_append_some {T : StoreT} {k : StoreKey} {v : Record}
    (h : lookupStore T k = some v) (L : StoreT) :
    lookupStore (T ++ L) k = some v := by
  induction T with
  | nil => simp [lookupStore] at h
  | cons kv t ih =>
    by_cases hk : kv.1 = k
    · simp [lookupStore, hk] at h ⊢
      exact h
    · simp [lookupStore, hk] at h ⊢
      exact ih h

theorem lookup_append_none {T : StoreT} {k : StoreKey}
    (h : lookupStore T k = none) (L : StoreT) :
    lookupStore (T ++ L) k = lookupStore L k := by
  induction T with
  | nil => simp
  | cons kv t ih =>
    by_cases hk : kv.1 = k <;> simp [lookupStore, hk] at h ⊢
    exact ih h

theorem keys_update (T : StoreT) (k : StoreKey) (r : Record) :
    keysOf (updateStore T k r) = keysOf T := by
  induction T with
  | nil => simp [updateStore]
  | cons kv t ih =>
    by_cases hk : kv.1 = k
    · simp [updateStore, hk, keysOf]
    · simp only [updateStore, if_neg hk]
      simp [keysOf] at ih ⊢
      exact ih

theorem lookup_eq_none_iff (T : StoreT) (k : StoreKey) :
    lookupStore T k = none ↔ k ∉ keysOf T := by
  induction T with
  | nil => simp [lookupStore, keysOf]
  | cons kv t ih =>
    by_cases hk : kv.1 = k
    · simp [lookupStore, hk, keysOf]
    · simp only [lookupStore, if_neg hk, keysOf, List.map_cons, List.mem_cons, not_or] at ih ⊢
      rw [ih]
      exact ⟨fun h2 => ⟨fun hc => hk hc.symm, h2⟩, fun h2 => h2.2⟩

theorem lookup_mem {T : StoreT} {k : StoreKey} {v : Record}
    (h : lookupStore T k = some v) : (k, v) ∈ T := by
  induction T with
  | nil => simp [lookupStore] at h
  | cons kv t ih =>
    by_cases hk : kv.1 = k
    · simp [lookupStore, hk] at h
      have : kv = (k, v) := Prod.ext hk h
      rw [← this]
      exact List.mem_cons_self kv t
    · simp [lookupStore, hk] at h
      exact List.mem_cons_of_mem kv (ih h)

theorem mem_lookup_of_nodup {T : StoreT} {kv : StoreKey × Record}
    (hnd : (keysOf T).Nodup) (h : kv ∈ T) : lookupStore T kv.1 = some kv.2 := by
  induction T with
  | nil => simp at h
  | cons kv0 t ih =>
    simp [keysOf] at hnd
    rcases List.mem_cons.mp h with h1 | h1
    · subst h1
      simp [lookupStore]
    · have hne : kv0.1 ≠ kv.1 := by
        intro hc
        apply hnd.1 kv.2
        rw [hc]
        simpa using h1
      simp [lookupStore, hne]
      exact ih hnd.2 h1

theorem mem_update {T : StoreT} {k : StoreKey} {v : Record} {kv : StoreKey × Record}
    (h : kv ∈ updateStore T k v) : kv ∈ T ∨ kv = (k, v) := by
  induction T with
  | nil => simp [updateStore] at h
  | cons kv0 t ih =>
    by_cases hk : kv0.1 = k
    · simp [updateStore, hk] at h
      rcases h with h1 | h1
      · right; exact h1
      · left; exact List.mem_cons_of_mem kv0 h1
    · simp only [updateStore, hk, if_false] at h
      rcases List.mem_cons.mp h with h1 | h1
      · left; simp [h1]
      · rcases ih h1 with h2 | h2
        · left; exact List.mem_cons_of_mem kv0 h2
        · right; exact h2

theorem update_eq_map {T : StoreT} {k : StoreKey} (r : Record)
    (hnd : (keysOf T).Nodup) :
    updateStore T k r = T.map (fun kv => if kv.1 = k then (k, r) else kv) := by
  induction T with
  | nil => simp [updateStore]
  | cons kv0 t ih =>
    simp [keysOf] at hnd
    by_cases hk : kv0.1 = k
    · simp [updateStore, hk]
      have hall : ∀ kv ∈ t, (if kv.1 = k then (k, r) else kv) = kv := by
        intro kv hkv
        have hne : kv.1 ≠ k := by
          intro hc
          apply hnd.1 kv.2
          have he : kv = (kv0.1, kv.2) := Prod.ext (hc.trans hk.symm) rfl
          rw [← he]
          exact hkv
        simp [hne]
      rw [List.map_congr_left hall]
      simp
    · simp [updateStore, hk, ih hnd.2]

/-! ### Shape lemmas about the per-row step -/

/-- The matching key of an owner entry: `(owner_name, role, registration_date)`. -/
def okey (o : OwnerDoc) : String × String × String :=
  (o.owner_name, o.role, o.registration_date)

theorem skippedB_false_of (r : Row)
    (h : r.building ≠ "" ∧ r.unit_number ≠ "" ∧ r.owner_name ≠ "") :
    skippedB r = false := by
  simp [skippedB, h.1, h.2.1, h.2.2]

theorem stepRow_skip (st : EngineState) (r : Row) (h : skippedB r = true) :
    stepRow st r = st := by
  simp [stepRow, h]

/-- In the update branch the step always rewrites the record at the row's
key to its merged attributes with some owner list, bumps `updated` by one,
and leaves `inserted` alone. -/
theorem stepRow_update_shape (st : EngineState) (r : Row) (rec : Record)
    (hns : skippedB r = false) (hl : lookupStore st.store (rkey r) = some rec) :
    ∃ owners2,
      (stepRow st r).store =
        updateStore st.store (rkey r) { attrs := mergeAttrs rec.attrs r.attrs, owners := owners2 } ∧
      (stepRow st r).counters.updated = st.counters.updated + 1 ∧
      (stepRow st r).counters.inserted = st.counters.inserted := by
  rcases h1 : (find_owner_indices rec.owners r.owner_name r.role r.reg_date).1 with _ | i
  · rcases h2 : (find_owner_indices rec.owners r.owner_name r.role r.reg_date).2 with _ | j
    · exact ⟨rec.owners ++ [ownerDocOf r], by
        simp [stepRow, hns, hl, h1, h2, bumpUpd, bumpNewOwner]⟩
    · exact ⟨rec.owners ++ [ownerDocOf r], by
        simp [stepRow, hns, hl, h1, h2, bumpUpd, bumpNewDate]⟩
  · by_cases h2 : ∀ c ∈ r.contacts, ¬c = "" → c ∈ ((getAt rec.owners i).getD blankOwner).contacts
    · refine ⟨rec.owners, ?_⟩
      simp [stepRow, hns, hl, h1]
      rw [if_pos h2]
      simp [bumpUpd]
    · refine ⟨setAt rec.owners i
        { (getAt rec.owners i).getD blankOwner with
          contacts := ((getAt rec.owners i).getD blankOwner).contacts ++
            r.contacts.filter
              (fun c => decide (c ≠ "" ∧ c ∉ ((getAt rec.owners i).getD blankOwner).contacts)) },
        ?_⟩
      simp [stepRow, hns, hl, h1]
      rw [if_neg h2]
      simp [bumpUpd, bumpMerged]

theorem filter_decide_nil (contacts cs : List String) :
    (contacts.filter (fun c => decide (c ≠ "" ∧ c ∉ cs)) = []) ↔
      ∀ c ∈ contacts, ¬c = "" → c ∈ cs := by
  simp [List.filter_eq_nil_iff]

/-- Detailed shape of the contact-merge branch: when an exact
`(owner_name, role, registration_date)` match exists at index `i`, the step
rewrites exactly that entry, extending its contact list by the row's new,
non-empty contacts, and never touches the append counters. -/
theorem stepRow_merge_shape (st : EngineState) (r : Row) (rec : Record) (i : Nat) (o : OwnerDoc)
    (hns : skippedB r = false) (hl : lookupStore st.store (rkey r) = some rec)
    (h1 : (find_owner_indices rec.owners r.owner_name r.role r.reg_date).1 = some i)
    (hgo : getAt rec.owners i = some o) :
    (stepRow st r).store = updateStore st.store (rkey r)
      { attrs := mergeAttrs rec.attrs r.attrs,
        owners := setAt rec.owners i
          { o with contacts := o.contacts ++
              r.contacts.filter (fun c => decide (c ≠ "" ∧ c ∉ o.contacts)) } } ∧
    (stepRow st r).counters.updated = st.counters.updated + 1 ∧
    (stepRow st r).counters.inserted = st.counters.inserted ∧
    (stepRow st r).counters.owners_added_same_owner_new_date =
      st.counters.owners_added_same_owner_new_date ∧
    (stepRow st r).counters.owners_added_new_owner = st.counters.owners_added_new_owner ∧
    (r.contacts.filter (fun c => decide (c ≠ "" ∧ c ∉ o.contacts)) = [] →
      (stepRow st r).counters.owners_merged_contacts = st.counters.owners_merged_contacts) ∧
    (r.contacts.filter (fun c => decide (c ≠ "" ∧ c ∉ o.contacts)) ≠ [] →
      (stepRow st r).counters.owners_merged_contacts = st.counters.owners_merged_contacts + 1) := by
  have hcur : (getAt rec.owners i).getD blankOwner = o := by rw [hgo]; rfl
  by_cases hfil0 : List.filter
      (fun c => decide (c ≠ "" ∧ c ∉ ((getAt rec.owners i).getD blankOwner).contacts))
      r.contacts = []
  · have hfil : r.contacts.filter (fun c => decide (c ≠ "" ∧ c ∉ o.contacts)) = [] := by
      rw [← hcur]
      exact hfil0
    have howners : setAt rec.owners i
        { o with contacts := o.contacts ++
          r.contacts.filter (fun c => decide (c ≠ "" ∧ c ∉ o.contacts)) } = rec.owners := by
      rw [hfil, List.append_nil]
      exact setAt_same hgo
    have hstep : stepRow st r =
        { store := updateStore st.store (rkey r)
            { attrs := mergeAttrs rec.attrs r.attrs, owners := rec.owners },
          counters := bumpUpd st.counters } := by
      simp only [stepRow, hns, Bool.false_eq_true, if_false, hl, h1]
      rw [if_pos hfil0]
    rw [hstep, howners]
    simp [bumpUpd, hfil]
    exact (filter_decide_nil r.contacts o.contacts).mp hfil
  · have hfil : r.contacts.filter (fun c => decide (c ≠ "" ∧ c ∉ o.contacts)) ≠ [] := by
      rw [← hcur]
      exact hfil0
    have hstep : stepRow st r =
        { store := updateStore st.store (rkey r)
            { attrs := mergeAttrs rec.attrs r.attrs,
              owners := setAt rec.owners i
                { o with contacts := o.contacts ++
                    r.contacts.filter (fun c => decide (c ≠ "" ∧ c ∉ o.contacts)) } },
          counters := bumpUpd (bumpMerged st.counters) } := by
      simp only [stepRow, hns, Bool.false_eq_true, if_false, hl, h1]
      rw [if_neg hfil0]
      simp [hcur]
    rw [hstep]
    simp [bumpUpd, bumpMerged, hfil]
    have hfil2 := hfil
    rw [Ne, filter_decide_nil] at hfil2
    simpa using hfil2

/-! ### Claims C6, C10, C5, C3 -/

/-- Claim C6 (skip rule): a row whose extracted building, unit number, or
owner name is empty leaves the engine state untouched — no store mutation of
any kind, and every run counter (in particular `inserted` and `updated`)
unchanged. -/
theorem claim_C6_skip_rule (st : EngineState) (r : Row)
    (h : r.building = "" ∨ r.unit_number = "" ∨ r.owner_name = "") :
    stepRow st r = st := by
  apply stepRow_skip
  simp [skippedB, h]

theorem claim_C6_skip_rule_witness :
    stepRow ⟨[], zeroCounters⟩ ⟨"", "101", "J. Doe", "Owner", "2023-01-01", [], blankAttrs⟩ =
      ⟨[], zeroCounters⟩ :=
  claim_C6_skip_rule ⟨[], zeroCounters⟩
    ⟨"", "101", "J. Doe", "Owner", "2023-01-01", [], blankAttrs⟩ (Or.inl rfl)

/-- Claim C10 (updated counter counts key matches, not modifications): for
every non-skipped row whose key is already in the store, the step bumps
`updated` by exactly one and leaves `inserted` alone, with no assumption
whatsoever that the row changes the stored record. The witness below
instantiates this at a row that provably changes nothing. -/
theorem claim_C10_updated_counter (st : EngineState) (r : Row) (rec : Record)
    (hid : r.building ≠ "" ∧ r.unit_number ≠ "" ∧ r.owner_name ≠ "")
    (hl : lookupStore st.store (rkey r) = some rec) :
    (stepRow st r).counters.updated = st.counters.updated + 1 ∧
    (stepRow st r).counters.inserted = st.counters.inserted := by
  obtain ⟨ow2, _, h1, h2⟩ := stepRow_update_shape st r rec (skippedB_false_of r hid) hl
  exact ⟨h1, h2⟩

theorem claim_C10_updated_counter_witness :
    (stepRow
      ⟨[(("Marina Heights", "101"),
          ⟨blankAttrs, [⟨"J. Doe", "Owner", "2023-01-01", ["+971501234567"]⟩]⟩)], zeroCounters⟩
      ⟨"Marina Heights", "101", "J. Doe", "Owner", "2023-01-01", ["+971501234567"],
        blankAttrs⟩).counters.updated = 1 ∧
    (stepRow
      ⟨[(("Marina Heights", "101"),
          ⟨blankAttrs, [⟨"J. Doe", "Owner", "2023-01-01", ["+971501234567"]⟩]⟩)], zeroCounters⟩
      ⟨"Marina Heights", "101", "J. Doe", "Owner", "2023-01-01", ["+971501234567"],
        blankAttrs⟩).store =
      [(("Marina Heights", "101"),
          ⟨blankAttrs, [⟨"J. Doe", "Owner", "2023-01-01", ["+971501234567"]⟩]⟩)] := by
  refine ⟨(claim_C10_updated_counter _ _
    ⟨blankAttrs, [⟨"J. Doe", "Owner", "2023-01-01", ["+971501234567"]⟩]⟩
    (by decide) (by decide)).1, by decide⟩

/-- What "never clobber" means for a string-valued attribute field: an
incoming null or empty value leaves the stored value, a non-empty incoming
value is written. -/
def keepsStr (old new result : Option String) : Prop :=
  ((new = none ∨ new = some "") → result = old) ∧
  (∀ v, new = some v → v ≠ "" → result = some v)

/-- What the field refresh means for a non-string attribute field: an
incoming null leaves the stored value, any incoming value is written. -/
def keepsVal {α : Type} (old new result : Option α) : Prop :=
  (new = none → result = old) ∧ (∀ v, new = some v → result = some v)

theorem keepS_keeps (old new : Option String) : keepsStr old new (keepS old new) := by
  constructor
  · rintro (rfl | rfl) <;> simp [keepS]
  · rintro v rfl hv
    simp [keepS, hv]

theorem keepO_keeps {α : Type} (old new : Option α) : keepsVal old new (keepO old new) := by
  constructor
  · rintro rfl; rfl
  · rintro v rfl; rfl

/-- Claim C5 (never-clobber): updating an existing unit record writes only
the attribute fields whose incoming normalized value is non-null and
non-empty; every field arriving as null or empty (in particular an empty
`city`) keeps its stored value. -/
theorem claim_C5_never_clobber (st : EngineState) (r : Row) (rec : Record)
    (hid : r.building ≠ "" ∧ r.unit_number ≠ "" ∧ r.owner_name ≠ "")
    (hl : lookupStore st.store (rkey r) = some rec) :
    ∃ rec2, lookupStore (stepRow st r).store (rkey r) = some rec2 ∧
      keepsVal rec.attrs.area_sqft r.attrs.area_sqft rec2.attrs.area_sqft ∧
      keepsVal rec.attrs.price r.attrs.price rec2.attrs.price ∧
      keepsStr rec.attrs.price_raw r.attrs.price_raw rec2.attrs.price_raw ∧
      keepsStr rec.attrs.property_type r.attrs.property_type rec2.attrs.property_type ∧
      keepsStr rec.attrs.sub_type r.attrs.sub_type rec2.attrs.sub_type ∧
      keepsVal rec.attrs.beds r.attrs.beds rec2.attrs.beds ∧
      keepsStr rec.attrs.city r.attrs.city rec2.attrs.city ∧
      keepsStr rec.attrs.community r.attrs.community rec2.attrs.community ∧
      keepsStr rec.attrs.sub_community r.attrs.sub_community rec2.attrs.sub_community ∧
      keepsStr rec.attrs.municipality_number r.attrs.municipality_number
        rec2.attrs.municipality_number ∧
      keepsStr rec.attrs.municipality_sub_number r.attrs.municipality_sub_number
        rec2.attrs.municipality_sub_number := by
  obtain ⟨ow2, hstore, _, _⟩ := stepRow_update_shape st r rec (skippedB_false_of r hid) hl
  refine ⟨{ attrs := mergeAttrs rec.attrs r.attrs, owners := ow2 }, ?_, ?_, ?_, ?_, ?_, ?_, ?_,
    ?_, ?_, ?_, ?_, ?_⟩
  · rw [hstore]
    exact lookup_update_self _ hl
  all_goals first
    | exact keepO_keeps _ _
    | exact keepS_keeps _ _

theorem claim_C5_never_clobber_witness :
    ∃ rec2,
      lookupStore
        (stepRow
          ⟨[(("Marina Heights", "101"),
              ⟨{ blankAttrs with city := some "Dubai" },
                [⟨"J. Doe", "Owner", "2023-01-01", []⟩]⟩)], zeroCounters⟩
          ⟨"Marina Heights", "101", "J. Doe", "Owner", "2023-01-01", [],
            blankAttrs⟩).store ("Marina Heights", "101") = some rec2 ∧
      keepsVal none none rec2.attrs.area_sqft ∧
      keepsVal none none rec2.attrs.price ∧
      keepsStr none none rec2.attrs.price_raw ∧
      keepsStr none none rec2.attrs.property_type ∧
      keepsStr none none rec2.attrs.sub_type ∧
      keepsVal none none rec2.attrs.beds ∧
      keepsStr (some "Dubai") none rec2.attrs.city ∧
      keepsStr none none rec2.attrs.community ∧
      keepsStr none none rec2.attrs.sub_community ∧
      keepsStr none none rec2.attrs.municipality_number ∧
      keepsStr none none rec2.attrs.municipality_sub_number := by
  have h := claim_C5_never_clobber
    ⟨[(("Marina Heights", "101"),
        ⟨{ blankAttrs with city := some "Dubai" },
          [⟨"J. Doe", "Owner", "2023-01-01", []⟩]⟩)], zeroCounters⟩
    ⟨"Marina Heights", "101", "J. Doe", "Owner", "2023-01-01", [], blankAttrs⟩
    ⟨{ blankAttrs with city := some "Dubai" }, [⟨"J. Doe", "Owner", "2023-01-01", []⟩]⟩
    (by decide) (by decide)
  obtain ⟨rec2, h1, h2⟩ := h
  exact ⟨rec2, h1, h2⟩

/-- Claim C3 (owner matcher rule ordering): whenever some existing owner
entry matches the candidate's `(owner_name, role, registration_date)`
exactly, the step takes the contact-merge action: the owner list keeps its
length and its sequence of entry keys (no entry is appended and no key is
rewritten), and neither append counter moves — no matter what other entries
with the same `(owner_name, role)` but different dates are present. -/
theorem claim_C3_rule_ordering (st : EngineState) (r : Row) (rec : Record)
    (hid : r.building ≠ "" ∧ r.unit_number ≠ "" ∧ r.owner_name ≠ "")
    (hl : lookupStore st.store (rkey r) = some rec)
    (hmatch : ∃ o ∈ rec.owners, o.owner_name = r.owner_name ∧ o.role = r.role ∧
      o.registration_date = r.reg_date) :
    ∃ rec2, lookupStore (stepRow st r).store (rkey r) = some rec2 ∧
      rec2.owners.length = rec.owners.length ∧
      rec2.owners.map okey = rec.owners.map okey ∧
      (stepRow st r).counters.owners_added_same_owner_new_date =
        st.counters.owners_added_same_owner_new_date ∧
      (stepRow st r).counters.owners_added_new_owner = st.counters.owners_added_new_owner := by
  obtain ⟨o0, ho0, hk⟩ := hmatch
  have hp : sameEntryB r.owner_name r.role r.reg_date o0 = true := by
    simp [sameEntryB, hk.1, hk.2.1, hk.2.2]
  obtain ⟨i, h1⟩ := findIdxO_isSome_of_mem ho0 hp
  have h1' : (find_owner_indices rec.owners r.owner_name r.role r.reg_date).1 = some i := h1
  obtain ⟨o, hgo, hpo⟩ := findIdxO_some h1
  obtain ⟨hstore, hupd, hins, hnd, hno, hm1, hm2⟩ :=
    stepRow_merge_shape st r rec i o (skippedB_false_of r hid) hl h1' hgo
  refine ⟨⟨mergeAttrs rec.attrs r.attrs,
    setAt rec.owners i
      ⟨o.owner_name, o.role, o.registration_date,
        o.contacts ++ r.contacts.filter (fun c => decide (c ≠ "" ∧ c ∉ o.contacts))⟩⟩,
    ?_, ?_, ?_, hnd, hno⟩
  · rw [hstore]
    exact lookup_update_self _ hl
  · exact length_setAt rec.owners i _
  · rw [map_setAt]
    apply setAt_same
    rw [getAt_map, hgo]
    rfl

theorem claim_C3_rule_ordering_witness :
    ∃ rec2,
      lookupStore
        (stepRow
          ⟨[(("Marina Heights", "101"),
              ⟨blankAttrs,
                [⟨"J. Doe", "Owner", "2020-05-05", ["+971501111111"]⟩,
                 ⟨"J. Doe", "Owner", "2023-01-01", ["+971501234567"]⟩]⟩)], zeroCounters⟩
          ⟨"Marina Heights", "101", "J. Doe", "Owner", "2023-01-01", ["+971509999999"],
            blankAttrs⟩).store ("Marina Heights", "101") = some rec2 ∧
      rec2.owners.length =
        ([⟨"J. Doe", "Owner", "2020-05-05", ["+971501111111"]⟩,
          ⟨"J. Doe", "Owner", "2023-01-01", ["+971501234567"]⟩] : List OwnerDoc).length ∧
      rec2.owners.map okey =
        ([⟨"J. Doe", "Owner", "2020-05-05", ["+971501111111"]⟩,
          ⟨"J. Doe", "Owner", "2023-01-01", ["+971501234567"]⟩] : List OwnerDoc).map okey ∧
      (stepRow
          ⟨[(("Marina Heights", "101"),
              ⟨blankAttrs,
                [⟨"J. Doe", "Owner", "2020-05-05", ["+971501111111"]⟩,
                 ⟨"J. Doe", "Owner", "2023-01-01", ["+971501234567"]⟩]⟩)], zeroCounters⟩
          ⟨"Marina Heights", "101", "J. Doe", "Owner", "2023-01-01", ["+971509999999"],
            blankAttrs⟩).counters.owners_added_same_owner_new_date =
        zeroCounters.owners_added_same_owner_new_date ∧
      (stepRow
          ⟨[(("Marina Heights", "101"),
              ⟨blankAttrs,
                [⟨"J. Doe", "Owner", "2020-05-05", ["+971501111111"]⟩,
                 ⟨"J. Doe", "Owner", "2023-01-01", ["+971501234567"]⟩]⟩)], zeroCounters⟩
          ⟨"Marina Heights", "101", "J. Doe", "Owner", "2023-01-01", ["+971509999999"],
            blankAttrs⟩).counters.owners_added_new_owner =
        zeroCounters.owners_added_new_owner :=
  claim_C3_rule_ordering _ _
    ⟨blankAttrs,
      [⟨"J. Doe", "Owner", "2020-05-05", ["+971501111111"]⟩,
       ⟨"J. Doe", "Owner", "2023-01-01", ["+971501234567"]⟩]⟩
    (by decide) (by decide)
    ⟨⟨"J. Doe", "Owner", "2023-01-01", ["+971501234567"]⟩, by decide, rfl, rfl, rfl⟩

/-- Shape of the insert branch: an unseen key appends a brand-new record
with the row's attributes and a single owner entry, and bumps `inserted`. -/
theorem stepRow_insert_shape (st : EngineState) (r : Row)
    (hns : skippedB r = false) (hl : lookupStore st.store (rkey r) = none) :
    stepRow st r =
      ⟨st.store ++ [(rkey r, ⟨r.attrs, [ownerDocOf r]⟩)], bumpIns st.counters⟩ := by
  simp [stepRow, hns, hl]

/-- Shape of the same-owner-new-date append branch. -/
theorem stepRow_new_date_shape (st : EngineState) (r : Row) (rec : Record) (j : Nat)
    (hns : skippedB r = false) (hl : lookupStore st.store (rkey r) = some rec)
    (h1 : (find_owner_indices rec.owners r.owner_name r.role r.reg_date).1 = none)
    (h2 : (find_owner_indices rec.owners r.owner_name r.role r.reg_date).2 = some j) :
    stepRow st r =
      ⟨updateStore st.store (rkey r)
        ⟨mergeAttrs rec.attrs r.attrs, rec.owners ++ [ownerDocOf r]⟩,
        bumpUpd (bumpNewDate st.counters)⟩ := by
  simp [stepRow, hns, hl, h1, h2]

/-- Shape of the brand-new-owner append branch. -/
theorem stepRow_new_owner_shape (st : EngineState) (r : Row) (rec : Record)
    (hns : skippedB r = false) (hl : lookupStore st.store (rkey r) = some rec)
    (h1 : (find_owner_indices rec.owners r.owner_name r.role r.reg_date).1 = none)
    (h2 : (find_owner_indices rec.owners r.owner_name r.role r.reg_date).2 = none) :
    stepRow st r =
      ⟨updateStore st.store (rkey r)
        ⟨mergeAttrs rec.attrs r.attrs, rec.owners ++ [ownerDocOf r]⟩,
        bumpUpd (bumpNewOwner st.counters)⟩ := by
  simp [stepRow, hns, hl, h1, h2]

theorem lookup_single (k : StoreKey) (v : Record) : lookupStore [(k, v)] k = some v := by
  simp [lookupStore]

/-- After the insert of a fresh key, the key reads back the new record. -/
theorem insert_lookup (st : EngineState) (r : Row)
    (hns : skippedB r = false) (hl : lookupStore st.store (rkey r) = none) :
    lookupStore (stepRow st r).store (rkey r) = some ⟨r.attrs, [ownerDocOf r]⟩ := by
  rw [stepRow_insert_shape st r hns hl]
  rw [lookup_append_none hl]
  exact lookup_single _ _

/-! ### Claims C2 and C4 -/

/-- Claim C2 (merge correctness): processing, on a fresh unit key, two rows
with identical `(building, unit, owner_name, role, registration_date)`
leaves exactly one owner entry, whose contact sequence is the first row's
contacts followed by the second row's genuinely new ones — the union of
both in first-appearance order, duplicate-free when the rows' contact lists
are (as `split_contacts` output always is) — and when the second row brings
no new contacts, the owner list and the merge counter stay untouched. -/
theorem claim_C2_merge_correct (st : EngineState) (r1 r2 : Row)
    (hid : r1.building ≠ "" ∧ r1.unit_number ≠ "" ∧ r1.owner_name ≠ "")
    (hkey : lookupStore st.store (rkey r1) = none)
    (heq : r2.building = r1.building ∧ r2.unit_number = r1.unit_number ∧
      r2.owner_name = r1.owner_name ∧ r2.role = r1.role ∧ r2.reg_date = r1.reg_date)
    (hn1 : r1.contacts.Nodup) (hn2 : r2.contacts.Nodup) (he2 : "" ∉ r2.contacts) :
    ∃ rec2, lookupStore (runRows st [r1, r2]).store (rkey r1) = some rec2 ∧
      rec2.owners = [⟨r1.owner_name, r1.role, r1.reg_date,
        r1.contacts ++ r2.contacts.filter (fun c => decide (c ∉ r1.contacts))⟩] ∧
      (∀ c, c ∈ r1.contacts ++ r2.contacts.filter (fun c => decide (c ∉ r1.contacts)) ↔
        (c ∈ r1.contacts ∨ c ∈ r2.contacts)) ∧
      (r1.contacts ++ r2.contacts.filter (fun c => decide (c ∉ r1.contacts))).Nodup ∧
      ((∀ c ∈ r2.contacts, c ∈ r1.contacts) →
        rec2.owners = [ownerDocOf r1] ∧
        (runRows st [r1, r2]).counters.owners_merged_contacts =
          st.counters.owners_merged_contacts) := by
  have hns1 : skippedB r1 = false := skippedB_false_of r1 hid
  have hns2 : skippedB r2 = false := by
    apply skippedB_false_of
    rw [heq.1, heq.2.1, heq.2.2.1]
    exact hid
  have hk2 : rkey r2 = rkey r1 := by
    simp [rkey, heq.1, heq.2.1]
  have hrun : runRows st [r1, r2] = stepRow (stepRow st r1) r2 := rfl
  have hl1 : lookupStore (stepRow st r1).store (rkey r2) =
      some ⟨r1.attrs, [ownerDocOf r1]⟩ := by
    rw [hk2]
    exact insert_lookup st r1 hns1 hkey
  have hp : sameEntryB r2.owner_name r2.role r2.reg_date (ownerDocOf r1) = true := by
    simp [sameEntryB, ownerDocOf, heq.2.2.1, heq.2.2.2.1, heq.2.2.2.2]
  have h1 : (find_owner_indices [ownerDocOf r1] r2.owner_name r2.role r2.reg_date).1 =
      some 0 := by
    simp [find_owner_indices, findIdxO, hp]
  have hgo : getAt [ownerDocOf r1] 0 = some (ownerDocOf r1) := rfl
  obtain ⟨hstore, hupd, hins, hnd, hno, hm1, hm2⟩ :=
    stepRow_merge_shape (stepRow st r1) r2 ⟨r1.attrs, [ownerDocOf r1]⟩ 0 (ownerDocOf r1)
      hns2 hl1 h1 hgo
  have hfc : r2.contacts.filter
      (fun c => decide (c ≠ "" ∧ c ∉ (ownerDocOf r1).contacts)) =
      r2.contacts.filter (fun c => decide (c ∉ r1.contacts)) := by
    apply List.filter_congr
    intro c hc
    have hcne : c ≠ "" := fun hce => he2 (hce ▸ hc)
    simp [ownerDocOf, hcne]
  rw [hrun]
  refine ⟨⟨mergeAttrs r1.attrs r2.attrs,
      [⟨r1.owner_name, r1.role, r1.reg_date,
        r1.contacts ++ r2.contacts.filter (fun c => decide (c ∉ r1.contacts))⟩]⟩,
    ?_, rfl, ?_, ?_, ?_⟩
  · rw [hstore, hk2]
    have : (setAt [ownerDocOf r1] 0
        ⟨(ownerDocOf r1).owner_name, (ownerDocOf r1).role, (ownerDocOf r1).registration_date,
          (ownerDocOf r1).contacts ++ r2.contacts.filter
            (fun c => decide (c ≠ "" ∧ c ∉ (ownerDocOf r1).contacts))⟩ : List OwnerDoc) =
        [⟨r1.owner_name, r1.role, r1.reg_date,
          r1.contacts ++ r2.contacts.filter (fun c => decide (c ∉ r1.contacts))⟩] := by
      rw [hfc]
      rfl
    rw [← this]
    exact lookup_update_self _ (hk2 ▸ hl1)
  · intro c
    constructor
    · intro hc
      rcases List.mem_append.mp hc with hc1 | hc1
      · exact Or.inl hc1
      · exact Or.inr (List.mem_filter.mp hc1).1
    · intro hc
      rcases hc with hc1 | hc1
      · exact List.mem_append.mpr (Or.inl hc1)
      · by_cases hin : c ∈ r1.contacts
        · exact List.mem_append.mpr (Or.inl hin)
        · exact List.mem_append.mpr (Or.inr (List.mem_filter.mpr ⟨hc1, by simp [hin]⟩))
  · apply List.Nodup.append hn1 (hn2.filter _)
    rw [List.disjoint_left]
    intro c hc1 hc2
    have := (List.mem_filter.mp hc2).2
    simp at this
    exact this hc1
  · intro hsub
    have hfe : r2.contacts.filter (fun c => decide (c ∉ r1.contacts)) = [] := by
      rw [List.filter_eq_nil_iff]
      intro c hc
      simp [hsub c hc]
    have hfe2 : r2.contacts.filter
        (fun c => decide (c ≠ "" ∧ c ∉ (ownerDocOf r1).contacts)) = [] := by
      rw [hfc]
      exact hfe
    constructor
    · simp only [hfe, List.append_nil]
      rfl
    · rw [hm1 hfe2, stepRow_insert_shape st r1 hns1 hkey]
      rfl

theorem claim_C2_merge_correct_witness :
    ∃ rec2,
      lookupStore
        (runRows ⟨[], zeroCounters⟩
          [⟨"Marina Heights", "101", "J. Doe", "Owner", "2023-01-01",
             ["+971501234567"], blankAttrs⟩,
           ⟨"Marina Heights", "101", "J. Doe", "Owner", "2023-01-01",
             ["+971501234567", "+971509999999"], blankAttrs⟩]).store
        ("Marina Heights", "101") = some rec2 ∧
      rec2.owners = [⟨"J. Doe", "Owner", "2023-01-01",
        ["+971501234567"] ++ (["+971501234567", "+971509999999"] : List String).filter
          (fun c => decide (c ∉ (["+971501234567"] : List String)))⟩] ∧
      (∀ c, c ∈ ["+971501234567"] ++ (["+971501234567", "+971509999999"] : List String).filter
          (fun c => decide (c ∉ (["+971501234567"] : List String))) ↔
        (c ∈ (["+971501234567"] : List String) ∨
          c ∈ (["+971501234567", "+971509999999"] : List String))) ∧
      (["+971501234567"] ++ (["+971501234567", "+971509999999"] : List String).filter
          (fun c => decide (c ∉ (["+971501234567"] : List String)))).Nodup ∧
      ((∀ c ∈ (["+971501234567", "+971509999999"] : List String),
          c ∈ (["+971501234567"] : List String)) →
        rec2.owners = [ownerDocOf ⟨"Marina Heights", "101", "J. Doe", "Owner", "2023-01-01",
          ["+971501234567"], blankAttrs⟩] ∧
        (runRows ⟨[], zeroCounters⟩
          [⟨"Marina Heights", "101", "J. Doe", "Owner", "2023-01-01",
             ["+971501234567"], blankAttrs⟩,
           ⟨"Marina Heights", "101", "J. Doe", "Owner", "2023-01-01",
             ["+971501234567", "+971509999999"], blankAttrs⟩]).counters.owners_merged_contacts =
          zeroCounters.owners_merged_contacts) :=
  claim_C2_merge_correct ⟨[], zeroCounters⟩
    ⟨"Marina Heights", "101", "J. Doe", "Owner", "2023-01-01", ["+971501234567"], blankAttrs⟩
    ⟨"Marina Heights", "101", "J. Doe", "Owner", "2023-01-01",
      ["+971501234567", "+971509999999"], blankAttrs⟩
    (by decide) rfl ⟨rfl, rfl, rfl, rfl, rfl⟩ (by decide) (by decide) (by decide)

/-- Claim C4 (new-date append): starting from a fresh unit key, two rows
sharing `(building, unit, owner_name, role)` but carrying different
`registration_date` values leave two distinct owner entries on the record,
the second appended as a brand-new entry by the same-owner-new-date branch
(whose counter is bumped by exactly one). -/
theorem claim_C4_new_date_append (st : EngineState) (r1 r2 : Row)
    (hid : r1.building ≠ "" ∧ r1.unit_number ≠ "" ∧ r1.owner_name ≠ "")
    (hkey : lookupStore st.store (rkey r1) = none)
    (heq : r2.building = r1.building ∧ r2.unit_number = r1.unit_number ∧
      r2.owner_name = r1.owner_name ∧ r2.role = r1.role)
    (hdate : r2.reg_date ≠ r1.reg_date) :
    ∃ rec2, lookupStore (runRows st [r1, r2]).store (rkey r1) = some rec2 ∧
      rec2.owners = [ownerDocOf r1, ownerDocOf r2] ∧
      ownerDocOf r1 ≠ ownerDocOf r2 ∧
      (runRows st [r1, r2]).counters.owners_added_same_owner_new_date =
        st.counters.owners_added_same_owner_new_date + 1 := by
  have hns1 : skippedB r1 = false := skippedB_false_of r1 hid
  have hns2 : skippedB r2 = false := by
    apply skippedB_false_of
    rw [heq.1, heq.2.1, heq.2.2.1]
    exact hid
  have hk2 : rkey r2 = rkey r1 := by
    simp [rkey, heq.1, heq.2.1]
  have hl1 : lookupStore (stepRow st r1).store (rkey r2) =
      some ⟨r1.attrs, [ownerDocOf r1]⟩ := by
    rw [hk2]
    exact insert_lookup st r1 hns1 hkey
  have hpe : sameEntryB r2.owner_name r2.role r2.reg_date (ownerDocOf r1) = false := by
    simp only [sameEntryB, ownerDocOf, decide_eq_false_iff_not]
    rintro ⟨-, -, hc⟩
    exact hdate hc.symm
  have h1 : (find_owner_indices [ownerDocOf r1] r2.owner_name r2.role r2.reg_date).1 =
      none := by
    simp [find_owner_indices, findIdxO, hpe]
  have hpo : sameOwnerB r2.owner_name r2.role (ownerDocOf r1) = true := by
    simp [sameOwnerB, ownerDocOf, heq.2.2.1, heq.2.2.2]
  have h2 : (find_owner_indices [ownerDocOf r1] r2.owner_name r2.role r2.reg_date).2 =
      some 0 := by
    simp [find_owner_indices, findIdxO, hpo]
  have hrun : runRows st [r1, r2] = stepRow (stepRow st r1) r2 := rfl
  rw [hrun, stepRow_new_date_shape (stepRow st r1) r2 ⟨r1.attrs, [ownerDocOf r1]⟩ 0
    hns2 hl1 h1 h2]
  refine ⟨⟨mergeAttrs r1.attrs r2.attrs, [ownerDocOf r1, ownerDocOf r2]⟩, ?_, rfl, ?_, ?_⟩
  · rw [hk2]
    exact lookup_update_self _ (hk2 ▸ hl1)
  · intro h
    exact hdate (congrArg OwnerDoc.registration_date h).symm
  · rw [stepRow_insert_shape st r1 hns1 hkey]
    rfl

theorem claim_C4_new_date_append_witness :
    ∃ rec2,
      lookupStore
        (runRows ⟨[], zeroCounters⟩
          [⟨"Marina Heights", "101", "J. Doe", "Owner", "2023-01-01",
             ["+971501234567"], blankAttrs⟩,
           ⟨"Marina Heights", "101", "J. Doe", "Owner", "2024-07-07",
             ["+971509999999"], blankAttrs⟩]).store
        ("Marina Heights", "101") = some rec2 ∧
      rec2.owners =
        [ownerDocOf ⟨"Marina Heights", "101", "J. Doe", "Owner", "2023-01-01",
          ["+971501234567"], blankAttrs⟩,
         ownerDocOf ⟨"Marina Heights", "101", "J. Doe", "Owner", "2024-07-07",
          ["+971509999999"], blankAttrs⟩] ∧
      ownerDocOf ⟨"Marina Heights", "101", "J. Doe", "Owner", "2023-01-01",
          ["+971501234567"], blankAttrs⟩ ≠
        ownerDocOf ⟨"Marina Heights", "101", "J. Doe", "Owner", "2024-07-07",
          ["+971509999999"], blankAttrs⟩ ∧
      (runRows ⟨[], zeroCounters⟩
          [⟨"Marina Heights", "101", "J. Doe", "Owner", "2023-01-01",
             ["+971501234567"], blankAttrs⟩,
           ⟨"Marina Heights", "101", "J. Doe", "Owner", "2024-07-07",
             ["+971509999999"], blankAttrs⟩]).counters.owners_added_same_owner_new_date =
        zeroCounters.owners_added_same_owner_new_date + 1 :=
  claim_C4_new_date_append ⟨[], zeroCounters⟩
    ⟨"Marina Heights", "101", "J. Doe", "Owner", "2023-01-01", ["+971501234567"], blankAttrs⟩
    ⟨"Marina Heights", "101", "J. Doe", "Owner", "2024-07-07", ["+971509999999"], blankAttrs⟩
    (by decide) rfl ⟨rfl, rfl, rfl, rfl⟩ (by decide)

/-! ### Claim C9: owner-entry key uniqueness -/

/-- The C9 invariant on one store: within every record, no two owner
entries share the same `(owner_name, role, registration_date)` key. -/
abbrev StoreOwnersUnique (T : StoreT) : Prop :=
  ∀ kv ∈ T, ((kv.2).owners.map okey).Nodup

theorem sameEntryB_of_okey {name role reg : String} {o : OwnerDoc}
    (h : okey o = (name, role, reg)) : sameEntryB name role reg o = true := by
  simp only [okey, Prod.mk.injEq] at h
  simp [sameEntryB, h.1, h.2.1, h.2.2]

/-- One reconciliation step preserves owner-key uniqueness in every record. -/
theorem step_owners_unique (st : EngineState) (r : Row)
    (h : StoreOwnersUnique st.store) : StoreOwnersUnique (stepRow st r).store := by
  by_cases hns : skippedB r = true
  · rw [stepRow_skip st r hns]
    exact h
  · rw [Bool.not_eq_true] at hns
    rcases hl : lookupStore st.store (rkey r) with _ | rec
    · rw [stepRow_insert_shape st r hns hl]
      intro kv hkv
      rcases List.mem_append.mp hkv with hkv1 | hkv1
      · exact h kv hkv1
      · simp at hkv1
        rw [hkv1]
        simp
    · have hu : ((rec.owners).map okey).Nodup := h (rkey r, rec) (lookup_mem hl)
      rcases h1 : (find_owner_indices rec.owners r.owner_name r.role r.reg_date).1 with _ | i
      · have hnot : okey (ownerDocOf r) ∉ rec.owners.map okey := by
          intro hc
          obtain ⟨o, ho, hko⟩ := List.mem_map.mp hc
          have hpo : sameEntryB r.owner_name r.role r.reg_date o = true :=
            sameEntryB_of_okey hko
          have := (findIdxO_eq_none (sameEntryB r.owner_name r.role r.reg_date)
            rec.owners).mp h1 o ho
          rw [hpo] at this
          cases this
        have hnew : ((rec.owners ++ [ownerDocOf r]).map okey).Nodup := by
          rw [List.map_append]
          apply List.Nodup.append hu (by simp)
          rw [List.disjoint_left]
          intro a ha hc
          simp at hc
          rw [hc] at ha
          exact hnot ha
        rcases h2 : (find_owner_indices rec.owners r.owner_name r.role r.reg_date).2 with _ | j
        · rw [stepRow_new_owner_shape st r rec hns hl h1 h2]
          intro kv hkv
          rcases mem_update hkv with hkv1 | hkv1
          · exact h kv hkv1
          · rw [hkv1]
            exact hnew
        · rw [stepRow_new_date_shape st r rec j hns hl h1 h2]
          intro kv hkv
          rcases mem_update hkv with hkv1 | hkv1
          · exact h kv hkv1
          · rw [hkv1]
            exact hnew
      · obtain ⟨o, hgo, hpo⟩ := findIdxO_some h1
        obtain ⟨hstore, -, -, -, -, -, -⟩ :=
          stepRow_merge_shape st r rec i o hns hl h1 hgo
        rw [hstore]
        intro kv hkv
        rcases mem_update hkv with hkv1 | hkv1
        · exact h kv hkv1
        · rw [hkv1]
          have hmap : (setAt rec.owners i
              { o with contacts := o.contacts ++
                  r.contacts.filter (fun c => decide (c ≠ "" ∧ c ∉ o.contacts)) }).map okey =
              rec.owners.map okey := by
            rw [map_setAt]
            apply setAt_same
            rw [getAt_map, hgo]
            rfl
          exact hmap ▸ hu

/-- Claim C9 (owner-entry uniqueness invariant): every store state the
engine reaches from a state satisfying the invariant still satisfies it —
within each unit record no two owner entries share the same
`(owner_name, role, registration_date)` key, whichever per-row mutations
(insert, contact merge, new-date append, new-owner append) the run makes. -/
theorem claim_C9_owner_key_unique (st : EngineState) (l : List Row)
    (h : StoreOwnersUnique st.store) : StoreOwnersUnique (runRows st l).store := by
  induction l generalizing st with
  | nil => exact h
  | cons r t ih => exact ih (stepRow st r) (step_owners_unique st r h)

theorem claim_C9_owner_key_unique_witness :
    StoreOwnersUnique
      (runRows
        ⟨[(("Marina Heights", "101"),
            ⟨blankAttrs, [⟨"J. Doe", "Owner", "2020-05-05", ["+971501111111"]⟩]⟩)],
          zeroCounters⟩
        [⟨"Marina Heights", "101", "J. Doe", "Owner", "2023-01-01",
           ["+971501234567"], blankAttrs⟩,
         ⟨"Marina Heights", "101", "J. Doe", "Owner", "2023-01-01",
           ["+971509999999"], blankAttrs⟩,
         ⟨"Marina Heights", "101", "A. Smith", "Buyer", "2023-02-02",
           ["+971502222222"], blankAttrs⟩]).store :=
  claim_C9_owner_key_unique
    ⟨[(("Marina Heights", "101"),
        ⟨blankAttrs, [⟨"J. Doe", "Owner", "2020-05-05", ["+971501111111"]⟩]⟩)],
      zeroCounters⟩
    [⟨"Marina Heights", "101", "J. Doe", "Owner", "2023-01-01",
       ["+971501234567"], blankAttrs⟩,
     ⟨"Marina Heights", "101", "J. Doe", "Owner", "2023-01-01",
       ["+971509999999"], blankAttrs⟩,
     ⟨"Marina Heights", "101", "A. Smith", "Buyer", "2023-02-02",
       ["+971502222222"], blankAttrs⟩]
    (by decide)

/-! ### Claim C7: parse_number versus parse_money -/

theorem dotCount_cons (c : Char) (l : List Char) :
    dotCount (c :: l) = if c = '.' then dotCount l + 1 else dotCount l := by
  by_cases hc : c = '.' <;> simp [dotCount, hc, List.filter_cons]

theorem splitDots_ne_nil (l : List Char) : splitDots l ≠ [] := by
  cases l with
  | nil => simp [splitDots]
  | cons c rest =>
    unfold splitDots
    by_cases hc : c = '.'
    · simp [hc]
    · simp only [hc, if_false]
      split <;> simp

theorem length_splitDots (l : List Char) : (splitDots l).length = dotCount l + 1 := by
  induction l with
  | nil => simp [splitDots, dotCount]
  | cons c rest ih =>
    by_cases hc : c = '.'
    · simp [splitDots, hc, dotCount_cons, ih]
    · rcases h : splitDots rest with _ | ⟨g, gs⟩
      · exact absurd h (splitDots_ne_nil rest)
      · rw [h] at ih
        simp only [List.length_cons] at ih
        simp [splitDots, hc, h, dotCount_cons]
        omega

theorem collapse_id {l : List Char} (h : dotCount l ≤ 1) : collapseDotsL l = l := by
  unfold collapseDotsL
  rcases hs : splitDots l with _ | ⟨p, rest⟩
  · rfl
  · have hlen := length_splitDots l
    rw [hs] at hlen
    simp only [List.length_cons] at hlen
    show (if 2 ≤ rest.length then p ++ '.' :: rest.flatten else l) = l
    rw [if_neg (by omega)]

theorem pyFloatCore_none_of_dots {l : List Char} (h : 2 ≤ dotCount l) :
    pyFloatCore l = none := by
  rw [pyFloatCore, if_neg]
  rintro ⟨-, h2, -⟩
  omega

theorem pyFloat_none_of_dots {l : List Char} (h : 2 ≤ dotCount l) : pyFloat l = none := by
  unfold pyFloat
  split
  · rename_i rest
    have h2 : 2 ≤ dotCount rest := by
      rw [dotCount_cons] at h
      simpa using h
    rw [pyFloatCore_none_of_dots h2]
    rfl
  · exact pyFloatCore_none_of_dots h

/-- Claim C7 counterexample: on `"1.2.3"` the source `parse_number` fails
(no multi-dot collapse), while the claimed reading — `parse_money`'s
stripping rule, collapse included — would parse it as the decimal `1.23`,
exactly as `parse_money` itself does. -/
theorem claim_C7_parse_number_cex :
    parse_number "1.2.3" ≠ parse_number_claimed "1.2.3" ∧
    parse_number "1.2.3" = none ∧
    parse_money "1.2.3" = some (mkRat 123 100) ∧
    parse_number_claimed "1.2.3" = some (Sum.inr (mkRat 123 100)) := by
  refine ⟨by decide, by decide, by decide, by decide⟩

/-- Claim C7 amended: `parse_number` shares `parse_money`'s stripping
pipeline except the multi-dot collapse. On text whose filtered form has at
most one dot it returns exactly `parse_money`'s value, as an integer when
there is no fractional part and a decimal otherwise; on multi-dot text it
returns null, as it does on empty/sentinel text and parse failure. -/
theorem claim_C7_parse_number_amended (val : String) :
    parse_number val =
      (if dotCount ((trimChars val.toList).filter numFilterChar) ≤ 1
        then parse_money val else none).map classifyNum := by
  show parse_number val =
    (if dotCount ((trimChars val.data).filter numFilterChar) ≤ 1
      then parse_money val else none).map classifyNum
  by_cases hs : isSentinelL (trimChars val.data) = true
  · simp [parse_number, parse_money, hs]
  · rw [Bool.not_eq_true] at hs
    by_cases hd : dotCount ((trimChars val.data).filter numFilterChar) ≤ 1
    · rw [if_pos hd]
      simp [parse_number, parse_money, hs, collapse_id hd]
    · rw [if_neg hd]
      have hz : pyFloat ((trimChars val.data).filter numFilterChar) = none :=
        pyFloat_none_of_dots (by omega)
      simp [parse_number, hs, hz]

/-! ### Claim C8: clean_phone -/

theorem mem_rewriteDoubleZero {c : Char} {l : List Char}
    (h : c ∈ rewriteDoubleZero l) : c ∈ l ∨ c = '+' := by
  unfold rewriteDoubleZero at h
  split at h
  · rcases List.mem_cons.mp h with h1 | h1
    · right; exact h1
    · left; exact List.mem_cons_of_mem _ (List.mem_cons_of_mem _ h1)
  · left; exact h

theorem mem_rewriteLocalFive {c : Char} {l : List Char}
    (h : c ∈ rewriteLocalFive l) : c ∈ l ∨ c.isDigit = true ∨ c = '+' := by
  unfold rewriteLocalFive at h
  split at h
  · simp only [List.mem_cons] at h
    rcases h with rfl | rfl | rfl | rfl | rfl | h1
    · right; right; rfl
    · right; left; decide
    · right; left; decide
    · right; left; decide
    · right; left; decide
    · left; exact List.mem_cons_of_mem _ (List.mem_cons_of_mem _ h1)
  · left; exact h

theorem rewriteDoubleZero_self {l : List Char}
    (h : ∀ rest, l ≠ '0' :: '0' :: rest) : rewriteDoubleZero l = l := by
  unfold rewriteDoubleZero
  split
  · rename_i r
    exact absurd rfl (h r)
  · rfl

theorem rewriteLocalFive_self {l : List Char}
    (h : ∀ rest, l ≠ '0' :: '5' :: rest) : rewriteLocalFive l = l := by
  unfold rewriteLocalFive
  split
  · rename_i r
    exact absurd rfl (h r)
  · rfl

theorem phone_pipeline_chars (f : List Char)
    (hf : ∀ c ∈ f, (c.isDigit || c == '+') = true) :
    ∀ c ∈ rewriteLocalFive (rewriteDoubleZero f), c.isDigit = true ∨ c = '+' := by
  intro c hc
  rcases mem_rewriteLocalFive hc with h1 | h1 | h1
  · rcases mem_rewriteDoubleZero h1 with h2 | h2
    · have := hf c h2
      simp at this
      rcases this with h3 | h3
      · left; exact h3
      · right; exact h3
    · right; exact h2
  · left; exact h1
  · right; exact h1

theorem clean_phone_chars (val : String) :
    ∀ c ∈ (clean_phone val).data, c.isDigit = true ∨ c = '+' := by
  intro c hc
  simp only [clean_phone] at hc
  by_cases hs : isSentinelL (trimChars val.toList) = true
  · rw [if_pos hs] at hc
    simp at hc
  · rw [if_neg hs] at hc
    by_cases hf : phoneFilter (stripDotZero (trimChars val.toList)) = []
    · rw [if_pos hf] at hc
      simp at hc
    · rw [if_neg hf] at hc
      exact phone_pipeline_chars _ (fun c hcf => (List.mem_filter.mp hcf).2) c hc

/-- Claim C8 counterexample: the source `clean_phone` keeps every `'+'`,
not only a leading one — on `"12+34"` it returns `"12+34"`, while the
claimed reading (only digits and a leading `'+'` retained) yields
`"1234"`. -/
theorem claim_C8_clean_phone_cex :
    clean_phone "12+34" = "12+34" ∧ clean_phone_claimed "12+34" = "1234" ∧
    clean_phone "12+34" ≠ clean_phone_claimed "12+34" := by
  refine ⟨by decide, by decide, by decide⟩

/-- Claim C8 amended: `clean_phone` strips a trailing `".0"` before
filtering, retains digits and `'+'` signs wherever they occur, rewrites a
leading `"00"` to `"+"` and a leading `"05"` to `"+9715…"`, leaves other
filtered text as is, returns the empty string when nothing usable remains,
and maps the spec's example `"0501234567"` to `"+971501234567"`. -/
theorem claim_C8_clean_phone_amended :
    (∀ (val : String), ∀ c ∈ (clean_phone val).data, c.isDigit = true ∨ c = '+') ∧
    (∀ (val : String), isSentinelL (trimChars val.toList) = false →
      (phoneFilter (stripDotZero (trimChars val.toList)) = [] → clean_phone val = "") ∧
      (∀ rest, phoneFilter (stripDotZero (trimChars val.toList)) = '0' :: '0' :: rest →
        clean_phone val = String.mk ('+' :: rest)) ∧
      (∀ rest, phoneFilter (stripDotZero (trimChars val.toList)) = '0' :: '5' :: rest →
        clean_phone val = String.mk ('+' :: '9' :: '7' :: '1' :: '5' :: rest)) ∧
      (phoneFilter (stripDotZero (trimChars val.toList)) ≠ [] →
        (∀ rest, phoneFilter (stripDotZero (trimChars val.toList)) ≠ '0' :: '0' :: rest) →
        (∀ rest, phoneFilter (stripDotZero (trimChars val.toList)) ≠ '0' :: '5' :: rest) →
        clean_phone val = String.mk (phoneFilter (stripDotZero (trimChars val.toList))))) ∧
    clean_phone "0501234567" = "+971501234567" := by
  refine ⟨clean_phone_chars, ?_, by decide⟩
  intro val hns
  have hns' : isSentinelL (trimChars val.data) = false := hns
  refine ⟨?_, ?_, ?_, ?_⟩
  · intro hf
    have hf' : phoneFilter (stripDotZero (trimChars val.data)) = [] := hf
    simp [clean_phone, hns', hf']
  · intro rest hrest
    have hrest' : phoneFilter (stripDotZero (trimChars val.data)) = '0' :: '0' :: rest := hrest
    have h0 : rewriteDoubleZero ('0' :: '0' :: rest) = '+' :: rest := rfl
    have h5 : rewriteLocalFive ('+' :: rest) = '+' :: rest :=
      rewriteLocalFive_self (fun r' hc => by simp at hc)
    simp [clean_phone, hns', hrest', h0, h5]
  · intro rest hrest
    have hrest' : phoneFilter (stripDotZero (trimChars val.data)) = '0' :: '5' :: rest := hrest
    have h0 : rewriteDoubleZero ('0' :: '5' :: rest) = '0' :: '5' :: rest := rfl
    have h5 : rewriteLocalFive ('0' :: '5' :: rest) =
        '+' :: '9' :: '7' :: '1' :: '5' :: rest := rfl
    simp [clean_phone, hns', hrest', h0, h5]
  · intro hf h00 h05
    have hf' : phoneFilter (stripDotZero (trimChars val.data)) ≠ [] := hf
    have h0 : rewriteDoubleZero (phoneFilter (stripDotZero (trimChars val.data))) =
        phoneFilter (stripDotZero (trimChars val.data)) := rewriteDoubleZero_self h00
    have h5 : rewriteLocalFive (phoneFilter (stripDotZero (trimChars val.data))) =
        phoneFilter (stripDotZero (trimChars val.data)) := by
      apply rewriteLocalFive_self
      intro r' hc
      exact h05 r' hc
    simp [clean_phone, hns', hf', h0, h5]

theorem claim_C8_clean_phone_amended_witness :
    clean_phone "0055123" = "+55123" := by
  have h := claim_C8_clean_phone_amended
  have h2 := (h.2.1 "0055123" (by decide)).2.1 ['5', '5', '1', '2', '3'] (by decide)
  exact h2

/-! ### Claim C1: idempotent re-import.

The attribute part of the store is an accumulation of "keep the old value
unless the incoming one is kept" writes; replaying the same write list is
absorbed. The owner part is absorbed because after one pass every row's
exact entry exists with all its contacts. -/

attribute [ext] Attrs

/-- The kept part of an incoming string-field value: `some` exactly when
`main` would include the field in `set_fields`. -/
def sKeep (new : Option String) : Option (Option String) :=
  match new with
  | some v => if v = "" then none else some (some v)
  | none => none

/-- The kept part of an incoming non-string field value. -/
def oKeep {α : Type} (new : Option α) : Option (Option α) :=
  new.map some

theorem keepS_eq (old new : Option String) : keepS old new = (sKeep new).getD old := by
  cases new with
  | none => rfl
  | some v => by_cases hv : v = "" <;> simp [keepS, sKeep, hv]

theorem keepO_eq {α : Type} (old new : Option α) : keepO old new = (oKeep new).getD old := by
  cases new <;> rfl

theorem sKeep_opt (x : Option String) : sKeep x = none ∨ sKeep x = some x := by
  cases x with
  | none => left; rfl
  | some v => by_cases hv : v = "" <;> simp [sKeep, hv]

theorem oKeep_opt {α : Type} (x : Option α) : oKeep x = none ∨ oKeep x = some x := by
  cases x <;> simp [oKeep]

theorem getLast?_cons_eq {α : Type} (v : α) (t : List α) :
    (v :: t).getLast? = some ((t.getLast?).getD v) := by
  induction t generalizing v with
  | nil => rfl
  | cons x t' ih =>
    rw [List.getLast?_cons_cons, ih x]
    simp [ih x]

theorem foldGetD_eq {α β : Type} (f : β → Option α) (ws : List β) (a : α) :
    ws.foldl (fun x w => (f w).getD x) a = ((ws.filterMap f).getLast?).getD a := by
  induction ws generalizing a with
  | nil => rfl
  | cons w t ih =>
    rw [List.foldl_cons, ih]
    cases hf : f w with
    | none => simp [List.filterMap_cons, hf]
    | some v => simp [List.filterMap_cons, hf, getLast?_cons_eq]

theorem foldGetD_replay {α β : Type} (f : β → Option α) (ws : List β) (a : α) :
    ws.foldl (fun x w => (f w).getD x) (ws.foldl (fun x w => (f w).getD x) a) =
      ws.foldl (fun x w => (f w).getD x) a := by
  rw [foldGetD_eq, foldGetD_eq]
  cases h : (ws.filterMap f).getLast? <;> simp [h]

theorem foldGetD_insert_replay {α β : Type} (f : β → Option α) (ws : List β) (w : β) (a : α)
    (hw : f w = none ∨ f w = some a) :
    (w :: ws).foldl (fun x u => (f u).getD x) (ws.foldl (fun x u => (f u).getD x) a) =
      ws.foldl (fun x u => (f u).getD x) a := by
  rw [List.foldl_cons]
  rcases hw with hw | hw
  · rw [hw, Option.getD_none]
    exact foldGetD_replay f ws a
  · rw [hw, Option.getD_some]

theorem foldA_proj {γ : Type} (proj : Attrs → γ) (f : Attrs → Option γ)
    (hp : ∀ a w, proj (mergeAttrs a w) = (f w).getD (proj a)) :
    ∀ (ws : List Attrs) (a : Attrs),
      proj (ws.foldl mergeAttrs a) = ws.foldl (fun x w => (f w).getD x) (proj a) := by
  intro ws
  induction ws with
  | nil => intro a; rfl
  | cons w t ih =>
    intro a
    rw [List.foldl_cons, List.foldl_cons, ih, hp]

theorem foldA_field_replay {γ : Type} (proj : Attrs → γ) (f : Attrs → Option γ)
    (hp : ∀ a w, proj (mergeAttrs a w) = (f w).getD (proj a)) (ws : List Attrs) (a : Attrs) :
    proj (ws.foldl mergeAttrs (ws.foldl mergeAttrs a)) = proj (ws.foldl mergeAttrs a) := by
  rw [foldA_proj proj f hp, foldA_proj proj f hp, foldGetD_replay]

theorem foldA_field_insert_replay {γ : Type} (proj : Attrs → γ) (f : Attrs → Option γ)
    (hp : ∀ a w, proj (mergeAttrs a w) = (f w).getD (proj a))
    (ws : List Attrs) (a : Attrs) (hw : f a = none ∨ f a = some (proj a)) :
    proj ((a :: ws).foldl mergeAttrs (ws.foldl mergeAttrs a)) = proj (ws.foldl mergeAttrs a) := by
  rw [foldA_proj proj f hp, foldA_proj proj f hp]
  exact foldGetD_insert_replay f ws a (proj a) hw

theorem foldA_replay (ws : List Attrs) (a : Attrs) :
    ws.foldl mergeAttrs (ws.foldl mergeAttrs a) = ws.foldl mergeAttrs a := by
  apply Attrs.ext
  · exact foldA_field_replay Attrs.area_sqft (fun w => oKeep w.area_sqft)
      (fun a w => keepO_eq a.area_sqft w.area_sqft) ws a
  · exact foldA_field_replay Attrs.price (fun w => oKeep w.price)
      (fun a w => keepO_eq a.price w.price) ws a
  · exact foldA_field_replay Attrs.price_raw (fun w => sKeep w.price_raw)
      (fun a w => keepS_eq a.price_raw w.price_raw) ws a
  · exact foldA_field_replay Attrs.property_type (fun w => sKeep w.property_type)
      (fun a w => keepS_eq a.property_type w.property_type) ws a
  · exact foldA_field_replay Attrs.sub_type (fun w => sKeep w.sub_type)
      (fun a w => keepS_eq a.sub_type w.sub_type) ws a
  · exact foldA_field_replay Attrs.beds (fun w => oKeep w.beds)
      (fun a w => keepO_eq a.beds w.beds) ws a
  · exact foldA_field_replay Attrs.city (fun w => sKeep w.city)
      (fun a w => keepS_eq a.city w.city) ws a
  · exact foldA_field_replay Attrs.community (fun w => sKeep w.community)
      (fun a w => keepS_eq a.community w.community) ws a
  · exact foldA_field_replay Attrs.sub_community (fun w => sKeep w.sub_community)
      (fun a w => keepS_eq a.sub_community w.sub_community) ws a
  · exact foldA_field_replay Attrs.municipality_number (fun w => sKeep w.municipality_number)
      (fun a w => keepS_eq a.municipality_number w.municipality_number) ws a
  · exact foldA_field_replay Attrs.municipality_sub_number
      (fun w => sKeep w.municipality_sub_number)
      (fun a w => keepS_eq a.municipality_sub_number w.municipality_sub_number) ws a

theorem foldA_insert_replay (ws : List Attrs) (a : Attrs) :
    (a :: ws).foldl mergeAttrs (ws.foldl mergeAttrs a) = ws.foldl mergeAttrs a := by
  apply Attrs.ext
  · exact foldA_field_insert_replay Attrs.area_sqft (fun w => oKeep w.area_sqft)
      (fun a w => keepO_eq a.area_sqft w.area_sqft) ws a (oKeep_opt a.area_sqft)
  · exact foldA_field_insert_replay Attrs.price (fun w => oKeep w.price)
      (fun a w => keepO_eq a.price w.price) ws a (oKeep_opt a.price)
  · exact foldA_field_insert_replay Attrs.price_raw (fun w => sKeep w.price_raw)
      (fun a w => keepS_eq a.price_raw w.price_raw) ws a (sKeep_opt a.price_raw)
  · exact foldA_field_insert_replay Attrs.property_type (fun w => sKeep w.property_type)
      (fun a w => keepS_eq a.property_type w.property_type) ws a (sKeep_opt a.property_type)
  · exact foldA_field_insert_replay Attrs.sub_type (fun w => sKeep w.sub_type)
      (fun a w => keepS_eq a.sub_type w.sub_type) ws a (sKeep_opt a.sub_type)
  · exact foldA_field_insert_replay Attrs.beds (fun w => oKeep w.beds)
      (fun a w => keepO_eq a.beds w.beds) ws a (oKeep_opt a.beds)
  · exact foldA_field_insert_replay Attrs.city (fun w => sKeep w.city)
      (fun a w => keepS_eq a.city w.city) ws a (sKeep_opt a.city)
  · exact foldA_field_insert_replay Attrs.community (fun w => sKeep w.community)
      (fun a w => keepS_eq a.community w.community) ws a (sKeep_opt a.community)
  · exact foldA_field_insert_replay Attrs.sub_community (fun w => sKeep w.sub_community)
      (fun a w => keepS_eq a.sub_community w.sub_community) ws a (sKeep_opt a.sub_community)
  · exact foldA_field_insert_replay Attrs.municipality_number
      (fun w => sKeep w.municipality_number)
      (fun a w => keepS_eq a.municipality_number w.municipality_number) ws a
      (sKeep_opt a.municipality_number)
  · exact foldA_field_insert_replay Attrs.municipality_sub_number
      (fun w => sKeep w.municipality_sub_number)
      (fun a w => keepS_eq a.municipality_sub_number w.municipality_sub_number) ws a
      (sKeep_opt a.municipality_sub_number)

/-- The normalized attribute values that a run's rows write to a given key,
in processing order (skipped rows contribute nothing). -/
def rowWrites (l : List Row) (k : StoreKey) : List Attrs :=
  (l.filter (fun r => !skippedB r && decide (rkey r = k))).map Row.attrs

/-- Replay only the attribute refreshes of a row list onto a store, leaving
every owner list alone. -/
def replayAttrs (T : StoreT) (l : List Row) : StoreT :=
  T.map (fun kv => (kv.1,
    { attrs := (rowWrites l kv.1).foldl mergeAttrs kv.2.attrs, owners := kv.2.owners }))

theorem rowWrites_nil (k : StoreKey) : rowWrites [] k = [] := rfl

theorem rowWrites_cons_skip {r : Row} (h : skippedB r = true) (l : List Row) (k : StoreKey) :
    rowWrites (r :: l) k = rowWrites l k := by
  simp [rowWrites, List.filter_cons, h]

theorem rowWrites_cons_ne {r : Row} {k : StoreKey} (h : skippedB r = false)
    (hk : ¬rkey r = k) (l : List Row) :
    rowWrites (r :: l) k = rowWrites l k := by
  simp [rowWrites, List.filter_cons, h, hk]

theorem rowWrites_cons_eq {r : Row} {k : StoreKey} (h : skippedB r = false)
    (hk : rkey r = k) (l : List Row) :
    rowWrites (r :: l) k = r.attrs :: rowWrites l k := by
  simp [rowWrites, List.filter_cons, h, hk]

theorem rowWrites_append (l1 l2 : List Row) (k : StoreKey) :
    rowWrites (l1 ++ l2) k = rowWrites l1 k ++ rowWrites l2 k := by
  simp [rowWrites, List.filter_append]

theorem replayAttrs_nil (T : StoreT) : replayAttrs T [] = T := by
  induction T with
  | nil => rfl
  | cons kv t ih =>
    simp only [replayAttrs, List.map_cons] at ih ⊢
    rw [ih]
    rfl

theorem replayAttrs_append (T : StoreT) (l1 l2 : List Row) :
    replayAttrs T (l1 ++ l2) = replayAttrs (replayAttrs T l1) l2 := by
  simp only [replayAttrs, List.map_map]
  apply List.map_congr_left
  intro kv _
  simp [rowWrites_append, List.foldl_append]

theorem replayAttrs_cons_skip {r : Row} (h : skippedB r = true) (T : StoreT) (l : List Row) :
    replayAttrs T (r :: l) = replayAttrs T l := by
  simp only [replayAttrs]
  apply List.map_congr_left
  intro kv _
  rw [rowWrites_cons_skip h]

/-- A non-skipped step never changes the record stored at a different key. -/
theorem lookup_step_ne {st : EngineState} {r : Row} {k : StoreKey}
    (hns : skippedB r = false) (hk : ¬rkey r = k) :
    lookupStore (stepRow st r).store k = lookupStore st.store k := by
  rcases hl : lookupStore st.store (rkey r) with _ | rec
  · rw [stepRow_insert_shape st r hns hl]
    rcases hlk : lookupStore st.store k with _ | v
    · rw [lookup_append_none hlk]
      simp [lookupStore, hk]
    · rw [lookup_append_some hlk]
  · obtain ⟨ow2, hstore, -, -⟩ := stepRow_update_shape st r rec hns hl
    rw [hstore]
    exact lookup_update_ne _ (fun hc => hk hc.symm)

/-- What the `inserted` record's attributes fold to when a previously
unseen key receives its write list. -/
def insFold (ws : List Attrs) : Option Attrs :=
  match ws with
  | [] => none
  | a :: t => some (t.foldl mergeAttrs a)

/-- Pass-level characterization of each record's attribute fields: an
existing record's attributes are the fold of the run's writes over its old
attributes; a fresh key's record holds its first write folded with the
rest. -/
theorem run_attrs_char (l : List Row) (st : EngineState) (k : StoreKey) :
    Option.map Record.attrs (lookupStore (runRows st l).store k) =
      (match lookupStore st.store k with
        | some rec => some ((rowWrites l k).foldl mergeAttrs rec.attrs)
        | none => insFold (rowWrites l k)) := by
  induction l generalizing st with
  | nil =>
    rcases hl : lookupStore st.store k with _ | rec <;>
      simp [runRows, hl, rowWrites_nil, insFold]
  | cons r t ih =>
    have hrun : runRows st (r :: t) = runRows (stepRow st r) t := rfl
    rw [hrun, ih (stepRow st r)]
    by_cases hns : skippedB r = true
    · rw [stepRow_skip st r hns, rowWrites_cons_skip hns]
    · rw [Bool.not_eq_true] at hns
      by_cases hk : rkey r = k
      · subst hk
        rcases hl : lookupStore st.store (rkey r) with _ | rec
        · have hstep : lookupStore (stepRow st r).store (rkey r) =
              some ⟨r.attrs, [ownerDocOf r]⟩ := insert_lookup st r hns hl
          rw [hstep, rowWrites_cons_eq hns rfl]
          rfl
        · obtain ⟨ow2, hstore, -, -⟩ := stepRow_update_shape st r rec hns hl
          have hstep : lookupStore (stepRow st r).store (rkey r) =
              some ⟨mergeAttrs rec.attrs r.attrs, ow2⟩ := by
            rw [hstore]
            exact lookup_update_self _ hl
          rw [hstep, rowWrites_cons_eq hns rfl]
          rfl
      · rw [lookup_step_ne hns hk, rowWrites_cons_ne hns hk]

/-- A row is absorbed by a store when it is skipped, or its key is present
and the first exact owner-entry match already carries every non-empty
contact of the row. After one pass, every processed row is absorbed. -/
def Absorbed (T : StoreT) (r : Row) : Prop :=
  skippedB r = true ∨
  ∃ rec i o, lookupStore T (rkey r) = some rec ∧
    (find_owner_indices rec.owners r.owner_name r.role r.reg_date).1 = some i ∧
    getAt rec.owners i = some o ∧
    ∀ c ∈ r.contacts, c ≠ "" → c ∈ o.contacts

/-- Processing a row leaves it absorbed by the resulting store. -/
theorem absorb_self (st : EngineState) (r : Row) : Absorbed (stepRow st r).store r := by
  by_cases hns : skippedB r = true
  · left; exact hns
  · right
    rw [Bool.not_eq_true] at hns
    rcases hl : lookupStore st.store (rkey r) with _ | rec
    · refine ⟨⟨r.attrs, [ownerDocOf r]⟩, 0, ownerDocOf r,
        insert_lookup st r hns hl, ?_, rfl, fun c hc _ => hc⟩
      simp [find_owner_indices, findIdxO, sameEntryB, ownerDocOf]
    · rcases h1 : (find_owner_indices rec.owners r.owner_name r.role r.reg_date).1 with _ | i
      · have hpod : sameEntryB r.owner_name r.role r.reg_date (ownerDocOf r) = true := by
          simp [sameEntryB, ownerDocOf]
        have hfind : findIdxO (sameEntryB r.owner_name r.role r.reg_date)
            (rec.owners ++ [ownerDocOf r]) = some rec.owners.length := by
          rw [findIdxO_append_none h1 (ownerDocOf r), if_pos hpod]
        rcases h2 : (find_owner_indices rec.owners r.owner_name r.role r.reg_date).2 with _ | j
        · rw [stepRow_new_owner_shape st r rec hns hl h1 h2]
          exact ⟨⟨mergeAttrs rec.attrs r.attrs, rec.owners ++ [ownerDocOf r]⟩,
            rec.owners.length, ownerDocOf r, lookup_update_self _ hl, hfind,
            getAt_length_append _ _, fun c hc _ => hc⟩
        · rw [stepRow_new_date_shape st r rec j hns hl h1 h2]
          exact ⟨⟨mergeAttrs rec.attrs r.attrs, rec.owners ++ [ownerDocOf r]⟩,
            rec.owners.length, ownerDocOf r, lookup_update_self _ hl, hfind,
            getAt_length_append _ _, fun c hc _ => hc⟩
      · obtain ⟨o, hgo, hpo⟩ := findIdxO_some h1
        obtain ⟨hstore, -, -, -, -, -, -⟩ := stepRow_merge_shape st r rec i o hns hl h1 hgo
        refine ⟨⟨mergeAttrs rec.attrs r.attrs,
          setAt rec.owners i
            { o with contacts := o.contacts ++
                r.contacts.filter (fun c => decide (c ≠ "" ∧ c ∉ o.contacts)) }⟩,
          i,
          { o with contacts := o.contacts ++
              r.contacts.filter (fun c => decide (c ≠ "" ∧ c ∉ o.contacts)) },
          ?_, ?_, ?_, ?_⟩
        · rw [hstore]
          exact lookup_update_self _ hl
        · have hset : findIdxO (sameEntryB r.owner_name r.role r.reg_date)
              (setAt rec.owners i
                { o with contacts := o.contacts ++
                    r.contacts.filter (fun c => decide (c ≠ "" ∧ c ∉ o.contacts)) }) =
              findIdxO (sameEntryB r.owner_name r.role r.reg_date) rec.owners :=
            findIdxO_setAt hgo rfl
          show findIdxO (sameEntryB r.owner_name r.role r.reg_date) (setAt rec.owners i
            { o with contacts := o.contacts ++
                r.contacts.filter (fun c => decide (c ≠ "" ∧ c ∉ o.contacts)) }) = some i
          rw [hset]
          exact h1
        · exact getAt_setAt_self _ hgo
        · intro c hc hcne
          by_cases hmem : c ∈ o.contacts
          · exact List.mem_append.mpr (Or.inl hmem)
          · refine List.mem_append.mpr (Or.inr ?_)
            rw [List.mem_filter]
            exact ⟨hc, by simp [hcne, hmem]⟩

/-- Absorption is stable under any further step. -/
theorem absorb_mono (st : EngineState) (r' r : Row) (hab : Absorbed st.store r) :
    Absorbed (stepRow st r').store r := by
  rcases hab with hsk | ⟨rec, i, o, hl, h1, hgo, hsup⟩
  · left; exact hsk
  · right
    by_cases hns' : skippedB r' = true
    · rw [stepRow_skip st r' hns']
      exact ⟨rec, i, o, hl, h1, hgo, hsup⟩
    · rw [Bool.not_eq_true] at hns'
      rcases hl' : lookupStore st.store (rkey r') with _ | rec'
      · rw [stepRow_insert_shape st r' hns' hl']
        exact ⟨rec, i, o, lookup_append_some hl _, h1, hgo, hsup⟩
      · by_cases hk : rkey r' = rkey r
        · have hrec : rec' = rec := by
            rw [hk, hl] at hl'
            injection hl' with h
            exact h.symm
          subst hrec
          rcases h1' : (find_owner_indices rec'.owners r'.owner_name r'.role r'.reg_date).1
            with _ | i'
          · rcases h2' : (find_owner_indices rec'.owners r'.owner_name r'.role r'.reg_date).2
              with _ | j'
            · rw [stepRow_new_owner_shape st r' rec' hns' hl' h1' h2']
              refine ⟨⟨mergeAttrs rec'.attrs r'.attrs, rec'.owners ++ [ownerDocOf r']⟩,
                i, o, ?_, ?_, ?_, hsup⟩
              · rw [hk]
                exact lookup_update_self _ hl
              · exact findIdxO_append_left h1 _
              · exact getAt_append_left hgo _
            · rw [stepRow_new_date_shape st r' rec' j' hns' hl' h1' h2']
              refine ⟨⟨mergeAttrs rec'.attrs r'.attrs, rec'.owners ++ [ownerDocOf r']⟩,
                i, o, ?_, ?_, ?_, hsup⟩
              · rw [hk]
                exact lookup_update_self _ hl
              · exact findIdxO_append_left h1 _
              · exact getAt_append_left hgo _
          · obtain ⟨o'', hgo'', hpo''⟩ := findIdxO_some h1'
            obtain ⟨hstore', -, -, -, -, -, -⟩ :=
              stepRow_merge_shape st r' rec' i' o'' hns' hl' h1' hgo''
            rw [hstore']
            have hset : findIdxO (sameEntryB r.owner_name r.role r.reg_date)
                (setAt rec'.owners i'
                  { o'' with contacts := o''.contacts ++
                      r'.contacts.filter (fun c => decide (c ≠ "" ∧ c ∉ o''.contacts)) }) =
                findIdxO (sameEntryB r.owner_name r.role r.reg_date) rec'.owners :=
              findIdxO_setAt hgo'' rfl
            by_cases hii : i = i'
            · have hoo : o'' = o := by
                rw [hii] at hgo
                rw [hgo] at hgo''
                injection hgo'' with h
                exact h.symm
              refine ⟨⟨mergeAttrs rec'.attrs r'.attrs,
                setAt rec'.owners i'
                  { o'' with contacts := o''.contacts ++
                      r'.contacts.filter (fun c => decide (c ≠ "" ∧ c ∉ o''.contacts)) }⟩,
                i,
                { o'' with contacts := o''.contacts ++
                    r'.contacts.filter (fun c => decide (c ≠ "" ∧ c ∉ o''.contacts)) },
                ?_, ?_, ?_, ?_⟩
              · rw [hk]
                exact lookup_update_self _ hl
              · show findIdxO (sameEntryB r.owner_name r.role r.reg_date)
                  (setAt rec'.owners i'
                    { o'' with contacts := o''.contacts ++
                        r'.contacts.filter (fun c => decide (c ≠ "" ∧ c ∉ o''.contacts)) }) =
                  some i
                rw [hset]
                exact h1
              · rw [hii]
                exact getAt_setAt_self _ hgo''
              · intro c hc hcne
                refine List.mem_append.mpr (Or.inl ?_)
                rw [hoo]
                exact hsup c hc hcne
            · refine ⟨⟨mergeAttrs rec'.attrs r'.attrs,
                setAt rec'.owners i'
                  { o'' with contacts := o''.contacts ++
                      r'.contacts.filter (fun c => decide (c ≠ "" ∧ c ∉ o''.contacts)) }⟩,
                i, o, ?_, ?_, ?_, hsup⟩
              · rw [hk]
                exact lookup_update_self _ hl
              · show findIdxO (sameEntryB r.owner_name r.role r.reg_date)
                  (setAt rec'.owners i'
                    { o'' with contacts := o''.contacts ++
                        r'.contacts.filter (fun c => decide (c ≠ "" ∧ c ∉ o''.contacts)) }) =
                  some i
                rw [hset]
                exact h1
              · rw [getAt_setAt_ne _ _ hii]
                exact hgo
        · obtain ⟨ow2, hstore', -, -⟩ := stepRow_update_shape st r' rec' hns' hl'
          rw [hstore']
          refine ⟨rec, i, o, ?_, h1, hgo, hsup⟩
          rw [lookup_update_ne _ (fun hc => hk hc.symm)]
          exact hl

theorem absorb_run (st : EngineState) (l : List Row) (r : Row)
    (hab : Absorbed st.store r) : Absorbed (runRows st l).store r := by
  induction l generalizing st with
  | nil => exact hab
  | cons r' t ih => exact ih (stepRow st r') (absorb_mono st r' r hab)

/-- After one pass, every row of the pass is absorbed by the final store. -/
theorem absorb_all {l : List Row} {r : Row} (hr : r ∈ l) :
    ∀ st : EngineState, Absorbed (runRows st l).store r := by
  induction l with
  | nil => cases hr
  | cons r' t ih =>
    intro st
    rcases List.mem_cons.mp hr with rfl | hmem
    · exact absorb_run (stepRow st r) t r (absorb_self st r)
    · exact ih hmem (stepRow st r')

/-- An absorbed, non-skipped row only replays attribute writes: the step
equals the attribute-replay of that single row. -/
theorem step_absorbed_eq (st : EngineState) (r : Row)
    (hns : skippedB r = false) (hnd : (keysOf st.store).Nodup)
    (hab : Absorbed st.store r) :
    (stepRow st r).store = replayAttrs st.store [r] := by
  rcases hab with hsk | ⟨rec, i, o, hl, h1, hgo, hsup⟩
  · rw [hns] at hsk
    cases hsk
  · have hfil : r.contacts.filter (fun c => decide (c ≠ "" ∧ c ∉ o.contacts)) = [] := by
      rw [filter_decide_nil]
      exact fun c hc hcne => hsup c hc hcne
    obtain ⟨hstore, -, -, -, -, -, -⟩ := stepRow_merge_shape st r rec i o hns hl h1 hgo
    have howners : setAt rec.owners i
        { o with contacts := o.contacts ++
          r.contacts.filter (fun c => decide (c ≠ "" ∧ c ∉ o.contacts)) } = rec.owners := by
      rw [hfil, List.append_nil]
      exact setAt_same hgo
    rw [hstore, howners, update_eq_map _ hnd]
    unfold replayAttrs
    apply List.map_congr_left
    intro kv hkv
    by_cases hkk : kv.1 = rkey r
    · have hkv2 : kv.2 = rec := by
        have hm := mem_lookup_of_nodup hnd hkv
        rw [hkk, hl] at hm
        injection hm with h
        exact h.symm
      rw [if_pos hkk, hkk, hkv2, rowWrites_cons_eq hns rfl]
      rfl
    · rw [if_neg hkk, rowWrites_cons_ne hns (fun hc => hkk hc.symm)]
      rfl

theorem step_keys_nodup (st : EngineState) (r : Row) (h : (keysOf st.store).Nodup) :
    (keysOf (stepRow st r).store).Nodup := by
  by_cases hns : skippedB r = true
  · rw [stepRow_skip st r hns]
    exact h
  · rw [Bool.not_eq_true] at hns
    rcases hl : lookupStore st.store (rkey r) with _ | rec
    · rw [stepRow_insert_shape st r hns hl]
      have hnotin : rkey r ∉ keysOf st.store := (lookup_eq_none_iff _ _).mp hl
      show (keysOf (st.store ++ [(rkey r, _)])).Nodup
      rw [keysOf, List.map_append]
      refine List.Nodup.append h (by simp) ?_
      rw [List.disjoint_left]
      intro a ha hc
      simp at hc
      rw [hc] at ha
      exact hnotin ha
    · obtain ⟨ow2, hstore, -, -⟩ := stepRow_update_shape st r rec hns hl
      rw [hstore, keys_update]
      exact h

theorem run_keys_nodup (st : EngineState) (l : List Row) (h : (keysOf st.store).Nodup) :
    (keysOf (runRows st l).store).Nodup := by
  induction l generalizing st with
  | nil => exact h
  | cons r t ih => exact ih (stepRow st r) (step_keys_nodup st r h)

/-- A run over rows every one of which is absorbed only replays attribute
writes. -/
theorem replay_run (l : List Row) : ∀ st : EngineState,
    (keysOf st.store).Nodup → (∀ r ∈ l, Absorbed st.store r) →
    (runRows st l).store = replayAttrs st.store l := by
  induction l with
  | nil =>
    intro st _ _
    exact (replayAttrs_nil st.store).symm
  | cons r t ih =>
    intro st hnd hab
    by_cases hns : skippedB r = true
    · have h0 : runRows st (r :: t) = runRows st t := by
        show runRows (stepRow st r) t = runRows st t
        rw [stepRow_skip st r hns]
      rw [h0, replayAttrs_cons_skip hns]
      exact ih st hnd (fun r' hr' => hab r' (List.mem_cons_of_mem r hr'))
    · rw [Bool.not_eq_true] at hns
      have habr := hab r (List.mem_cons_self r t)
      have hstep := step_absorbed_eq st r hns hnd habr
      have hrecE : ∃ rec, lookupStore st.store (rkey r) = some rec := by
        rcases habr with hsk | ⟨rec, _, _, hl, -⟩
        · rw [hns] at hsk
          cases hsk
        · exact ⟨rec, hl⟩
      obtain ⟨rec, hl⟩ := hrecE
      obtain ⟨ow2, hstore, -, -⟩ := stepRow_update_shape st r rec hns hl
      have hnd' : (keysOf (stepRow st r).store).Nodup := by
        rw [hstore, keys_update]
        exact hnd
      have hab' : ∀ r' ∈ t, Absorbed (stepRow st r).store r' :=
        fun r' hr' => absorb_mono st r r' (hab r' (List.mem_cons_of_mem r hr'))
      have h0 : runRows st (r :: t) = runRows (stepRow st r) t := rfl
      rw [h0, ih (stepRow st r) hnd' hab', hstep, ← replayAttrs_append]
      rfl

/-- The final store of one pass is a fixed point of replaying that pass's
attribute writes. -/
theorem replayAttrs_run_fix (st : EngineState) (l : List Row)
    (hnd : (keysOf (runRows st l).store).Nodup) :
    replayAttrs (runRows st l).store l = (runRows st l).store := by
  unfold replayAttrs
  have hpt : ∀ kv ∈ (runRows st l).store,
      (kv.1, Record.mk ((rowWrites l kv.1).foldl mergeAttrs kv.2.attrs) kv.2.owners) = kv := by
    intro kv hkv
    have hlk := mem_lookup_of_nodup hnd hkv
    have hchar := run_attrs_char l st kv.1
    rw [hlk] at hchar
    rcases hl0 : lookupStore st.store kv.1 with _ | rec
    · rw [hl0] at hchar
      rcases hw : rowWrites l kv.1 with _ | ⟨a, t'⟩
      · rw [hw] at hchar
        simp [insFold] at hchar
      · rw [hw] at hchar
        simp [insFold] at hchar
        rw [hchar, foldA_insert_replay t' a, ← hchar]
    · rw [hl0] at hchar
      simp at hchar
      rw [hchar, foldA_replay, ← hchar]
  rw [List.map_congr_left hpt]
  simp

/-- The C1 no-duplicate-contacts invariant: every owner entry of every
record has a duplicate-free contact list. -/
abbrev StoreContactsOk (T : StoreT) : Prop :=
  ∀ kv ∈ T, ∀ o ∈ (kv.2).owners, o.contacts.Nodup

theorem step_contacts_ok (st : EngineState) (r : Row) (hr : r.contacts.Nodup)
    (h : StoreContactsOk st.store) : StoreContactsOk (stepRow st r).store := by
  by_cases hns : skippedB r = true
  · rw [stepRow_skip st r hns]
    exact h
  · rw [Bool.not_eq_true] at hns
    rcases hl : lookupStore st.store (rkey r) with _ | rec
    · rw [stepRow_insert_shape st r hns hl]
      intro kv hkv o ho
      rcases List.mem_append.mp hkv with hkv1 | hkv1
      · exact h kv hkv1 o ho
      · simp at hkv1
        rw [hkv1] at ho
        simp at ho
        rw [ho]
        exact hr
    · have hrec : ∀ o ∈ rec.owners, o.contacts.Nodup := h (rkey r, rec) (lookup_mem hl)
      have hnewdoc : (ownerDocOf r).contacts.Nodup := hr
      rcases h1 : (find_owner_indices rec.owners r.owner_name r.role r.reg_date).1 with _ | i
      · have happ : ∀ o ∈ rec.owners ++ [ownerDocOf r], o.contacts.Nodup := by
          intro o ho
          rcases List.mem_append.mp ho with ho1 | ho1
          · exact hrec o ho1
          · simp at ho1
            rw [ho1]
            exact hnewdoc
        rcases h2 : (find_owner_indices rec.owners r.owner_name r.role r.reg_date).2 with _ | j
        · rw [stepRow_new_owner_shape st r rec hns hl h1 h2]
          intro kv hkv o ho
          rcases mem_update hkv with hkv1 | hkv1
          · exact h kv hkv1 o ho
          · rw [hkv1] at ho
            exact happ o ho
        · rw [stepRow_new_date_shape st r rec j hns hl h1 h2]
          intro kv hkv o ho
          rcases mem_update hkv with hkv1 | hkv1
          · exact h kv hkv1 o ho
          · rw [hkv1] at ho
            exact happ o ho
      · obtain ⟨o0, hgo, hpo⟩ := findIdxO_some h1
        obtain ⟨hstore, -, -, -, -, -, -⟩ := stepRow_merge_shape st r rec i o0 hns hl h1 hgo
        rw [hstore]
        intro kv hkv o ho
        rcases mem_update hkv with hkv1 | hkv1
        · exact h kv hkv1 o ho
        · rw [hkv1] at ho
          rcases mem_setAt ho with ho1 | ho1
          · exact hrec o ho1
          · rw [ho1]
            refine List.Nodup.append (hrec o0 (getAt_mem hgo)) (hr.filter _) ?_
            rw [List.disjoint_left]
            intro a ha haf
            have := (List.mem_filter.mp haf).2
            simp at this
            exact this.2 ha

theorem run_contacts_ok (st : EngineState) (l : List Row)
    (hl : ∀ r ∈ l, r.contacts.Nodup) (h : StoreContactsOk st.store) :
    StoreContactsOk (runRows st l).store := by
  induction l generalizing st with
  | nil => exact h
  | cons r t ih =>
    exact ih (stepRow st r) (fun r' hr' => hl r' (List.mem_cons_of_mem r hr'))
      (step_contacts_ok st r (hl r (List.mem_cons_self r t)) h)

/-- Claim C1 (idempotent re-import): from any store with dictionary keys
and any row set, running the engine a second time over the identical row
set leaves the store exactly as after the first run; and when the rows'
contact lists are duplicate-free (as `split_contacts` output always is) and
the initial store has duplicate-free contact sets, so does the final store
— no duplicate owner entries are created and no contact number is
duplicated within any entry's contact set. -/
theorem claim_C1_idempotent_reimport (S : StoreT) (c c' : Counters) (l : List Row)
    (hkeys : (keysOf S).Nodup)
    (hrows : ∀ r ∈ l, r.contacts.Nodup)
    (hS : StoreContactsOk S) :
    (runRows ⟨(runRows ⟨S, c⟩ l).store, c'⟩ l).store = (runRows ⟨S, c⟩ l).store ∧
    StoreContactsOk ((runRows ⟨S, c⟩ l).store) := by
  have hnd1 : (keysOf (runRows ⟨S, c⟩ l).store).Nodup := run_keys_nodup ⟨S, c⟩ l hkeys
  constructor
  · have hab : ∀ r ∈ l, Absorbed ((⟨(runRows ⟨S, c⟩ l).store, c'⟩ : EngineState)).store r :=
      fun r hr => absorb_all hr ⟨S, c⟩
    rw [replay_run l ⟨(runRows ⟨S, c⟩ l).store, c'⟩ hnd1 hab]
    exact replayAttrs_run_fix ⟨S, c⟩ l hnd1
  · exact run_contacts_ok ⟨S, c⟩ l hrows hS

theorem claim_C1_idempotent_reimport_witness :
    (runRows
      ⟨(runRows ⟨[], zeroCounters⟩
          [⟨"Marina Heights", "101", "J. Doe", "Owner", "2023-01-01",
             ["+971501234567"], blankAttrs⟩,
           ⟨"Marina Heights", "101", "J. Doe", "Owner", "2023-01-01",
             ["+971501234567", "+971509999999"], blankAttrs⟩]).store, zeroCounters⟩
      [⟨"Marina Heights", "101", "J. Doe", "Owner", "2023-01-01",
         ["+971501234567"], blankAttrs⟩,
       ⟨"Marina Heights", "101", "J. Doe", "Owner", "2023-01-01",
         ["+971501234567", "+971509999999"], blankAttrs⟩]).store =
      (runRows ⟨[], zeroCounters⟩
        [⟨"Marina Heights", "101", "J. Doe", "Owner", "2023-01-01",
           ["+971501234567"], blankAttrs⟩,
         ⟨"Marina Heights", "101", "J. Doe", "Owner", "2023-01-01",
           ["+971501234567", "+971509999999"], blankAttrs⟩]).store ∧
    StoreContactsOk
      ((runRows ⟨[], zeroCounters⟩
        [⟨"Marina Heights", "101", "J. Doe", "Owner", "2023-01-01",
           ["+971501234567"], blankAttrs⟩,
         ⟨"Marina Heights", "101", "J. Doe", "Owner", "2023-01-01",
           ["+971501234567", "+971509999999"], blankAttrs⟩]).store) :=
  claim_C1_idempotent_reimport [] zeroCounters zeroCounters
    [⟨"Marina Heights", "101", "J. Doe", "Owner", "2023-01-01",
       ["+971501234567"], blankAttrs⟩,
     ⟨"Marina Heights", "101", "J. Doe", "Owner", "2023-01-01",
       ["+971501234567", "+971509999999"], blankAttrs⟩]
    (by decide) (by decide) (by decide)
